import Mathlib

/-!
Verification of the DeepSeek2API gateway core.

A shallow embedding of the gateway's core subsystems, translated from the Go
sources: the `DeepSeekHashV1` proof-of-work hash and its native solver
(`internal/pow/solver.go`), the PoW answer cache, the account pool
(`internal/accounts/pool.go`), the SSE chunk parser
(`internal/services/claude_stream.go`), the request-auth phase
(`internal/auth`), and the cloud-sync manager's conflict-retry and
version/cursor bookkeeping (`internal/cloudsync/manager.go`).

Machine integers are modelled as `Nat` (respectively `Int` where the Go code
uses signed values), with explicit reductions modulo `2 ^ 64` or `256` where
the Go code truncates.
-/

namespace DS2API

/-! ## 64-bit primitives

Go `uint64` values are represented as `Nat` below `2 ^ 64`; `^`, `|`, `&` on
`uint64` are `Nat.xor`, `Nat.lor`, `Nat.land` (which never leave the range),
and `bits.RotateLeft64` is `rotl64` with an explicit `% 2 ^ 64`. -/

def rotl64 (v n : Nat) : Nat := ((v <<< n) ||| (v >>> (64 - n))) % (2 ^ 64)

def not64 (v : Nat) : Nat := v ^^^ (2 ^ 64 - 1)

/-! ## Source embedding: `keccakF1600Rounds1To23` and `deepSeekHashV1`

Direct transliteration of `internal/pow/solver.go`.  The state is a list of
25 lanes (`a[x + 5*y]`), data a list of bytes. -/

/-- The hard-coded round-constant table `keccakRC` of solver.go. -/
def keccakRC : List Nat :=
  [0x0000000000000001, 0x0000000000008082, 0x800000000000808a, 0x8000000080008000,
   0x000000000000808b, 0x0000000080000001, 0x8000000080008081, 0x8000000000008009,
   0x000000000000008a, 0x0000000000000088, 0x0000000080008009, 0x000000008000000a,
   0x000000008000808b, 0x800000000000008b, 0x8000000000008089, 0x8000000000008003,
   0x8000000000008002, 0x8000000000000080, 0x000000000000800a, 0x800000008000000a,
   0x8000000080008081, 0x8000000000008080, 0x0000000080000001, 0x8000000080008008]

/-- The hard-coded rotation-offset table `rho` of solver.go (`rho[x][y]`). -/
def rho : List (List Nat) :=
  [[0, 36, 3, 41, 18],
   [1, 44, 10, 45, 2],
   [62, 6, 43, 15, 61],
   [28, 55, 25, 21, 56],
   [27, 20, 39, 8, 14]]

/-- The theta block of the Go loop body: the `c` parities, the `d` offsets,
and the in-place `a[x+5k] ^= d[x]` updates. -/
def keccakTheta (a : List Nat) : List Nat :=
  let c := (List.range 5).map (fun x =>
    a.getD x 0 ^^^ a.getD (x + 5) 0 ^^^ a.getD (x + 10) 0 ^^^
      a.getD (x + 15) 0 ^^^ a.getD (x + 20) 0)
  let d := [c.getD 4 0 ^^^ rotl64 (c.getD 1 0) 1,
            c.getD 0 0 ^^^ rotl64 (c.getD 2 0) 1,
            c.getD 1 0 ^^^ rotl64 (c.getD 3 0) 1,
            c.getD 2 0 ^^^ rotl64 (c.getD 4 0) 1,
            c.getD 3 0 ^^^ rotl64 (c.getD 0 0) 1]
  (List.range 25).map (fun i => a.getD i 0 ^^^ d.getD (i % 5) 0)

/-- The `(x, y)` pairs visited by the Go double loop
`for x := 0; x < 5; x++ { for y := 0; y < 5; y++ { ... } }`, in loop order. -/
def loopPairs55 : List (Nat × Nat) :=
  (List.range 5).flatMap (fun x => (List.range 5).map (fun y => (x, y)))

/-- Destination index of one rho/pi write: `y + 5*((2*x+3*y)%5)`. -/
def rhoPiDest (p : Nat × Nat) : Nat := p.2 + 5 * ((2 * p.1 + 3 * p.2) % 5)

/-- Value of one rho/pi write: `RotateLeft64(a[x+5*y], rho[x][y])`. -/
def rhoPiVal (a1 : List Nat) (p : Nat × Nat) : Nat :=
  rotl64 (a1.getD (p.1 + 5 * p.2) 0) ((rho.getD p.1 []).getD p.2 0)

/-- The combined rho/pi block of the Go loop body: the double loop writing
`b[y+5*((2*x+3*y)%5)] = RotateLeft64(a[x+5*y], rho[x][y])` into a fresh
zeroed array. -/
def keccakRhoPi (a1 : List Nat) : List Nat :=
  loopPairs55.foldl (fun bb p => bb.set (rhoPiDest p) (rhoPiVal a1 p))
    (List.replicate 25 0)

/-- The chi block of the Go loop body:
`a[x+y5] = b[x+y5] ^ ((^b[((x+1)%5)+y5]) & b[((x+2)%5)+y5])`. -/
def keccakChi (b : List Nat) : List Nat :=
  (List.range 25).map (fun i =>
    b.getD i 0 ^^^
      (not64 (b.getD ((i % 5 + 1) % 5 + (i - i % 5)) 0) &&&
        b.getD ((i % 5 + 2) % 5 + (i - i % 5)) 0))

/-- One round of the permutation body of `keccakF1600Rounds1To23`: theta,
the combined rho/pi write into `b`, chi, and the round-constant xor
`a[0] ^= keccakRC[round]`, exactly as written in the Go loop body. -/
def keccakRound (a : List Nat) (rc : Nat) : List Nat :=
  let a2 := keccakChi (keccakRhoPi (keccakTheta a))
  a2.set 0 (a2.getD 0 0 ^^^ rc)

/-- `keccakF1600Rounds1To23`: the permutation loop `for round := 1; round < 24`,
so the round-0 constant is never applied. -/
def keccakF1600Rounds1To23 (a : List Nat) : List Nat :=
  (List.range' 1 23).foldl (fun st round => keccakRound st (keccakRC.getD round 0)) a

/-- Assembly of one little-endian 64-bit lane from 8 bytes of a block,
as in the `lane := uint64(blk[i*8]) | uint64(blk[i*8+1])<<8 | ...` loops. -/
def leLane (blk : List Nat) (i : Nat) : Nat :=
  blk.getD (i * 8) 0 |||
  blk.getD (i * 8 + 1) 0 <<< 8 |||
  blk.getD (i * 8 + 2) 0 <<< 16 |||
  blk.getD (i * 8 + 3) 0 <<< 24 |||
  blk.getD (i * 8 + 4) 0 <<< 32 |||
  blk.getD (i * 8 + 5) 0 <<< 40 |||
  blk.getD (i * 8 + 6) 0 <<< 48 |||
  blk.getD (i * 8 + 7) 0 <<< 56

/-- XOR one 136-byte block into the first 17 lanes of the state
(`st[i] ^= lane` for `i < rate/8`). -/
def xorBlock (st blk : List Nat) : List Nat :=
  (List.range 25).map (fun i => if i < 17 then st.getD i 0 ^^^ leLane blk i else st.getD i 0)

/-- The absorb loop of `deepSeekHashV1`: process 136-byte blocks while
`off+rate <= len(data)`; returns the state and the unprocessed remainder.
The `fuel` argument is a totality device: each iteration consumes 136 bytes,
so any `fuel ≥ data.length` makes the recursion behave as the Go loop. -/
def absorbLoop (fuel : Nat) (st data : List Nat) : List Nat × List Nat :=
  match fuel with
  | 0 => (st, data)
  | fuel + 1 =>
    if 136 ≤ data.length then
      absorbLoop fuel (keccakF1600Rounds1To23 (xorBlock st (data.take 136))) (data.drop 136)
    else (st, data)

/-- The final padded block of `deepSeekHashV1`: a zero block holding the
remainder, `final[len(rem)] = 0x06`, `final[rate-1] |= 0x80`. -/
def finalizeBlock (rem : List Nat) : List Nat :=
  let f := rem ++ List.replicate (136 - rem.length) 0
  let f := f.set rem.length 0x06
  f.set 135 (f.getD 135 0 ||| 0x80)

/-- The output extraction of `deepSeekHashV1`: the first 4 lanes serialized
little-endian, `out[i*8+j] = byte(v >> 8*j)` (the Go `byte(...)` conversion
truncates, hence the `% 256`). -/
def squeeze32 (st : List Nat) : List Nat :=
  (List.range 32).map (fun k => (st.getD (k / 8) 0 >>> (8 * (k % 8))) % 256)

/-- `deepSeekHashV1(data)`: absorb full 136-byte blocks, absorb the padded
final block, and read the first 32 bytes of the state in little-endian lane
order. -/
def deepSeekHashV1 (data : List Nat) : List Nat :=
  let sr := absorbLoop data.length (List.replicate 25 0) data
  squeeze32 (keccakF1600Rounds1To23 (xorBlock sr.1 (finalizeBlock sr.2)))

/-! ## Reference Keccak-f[1600] sponge

An independent reference formulation, following FIPS 202: the state as a
coordinate function `A x y`, the five step mappings θ, ρ, π, χ, ι written
from their defining formulas, round constants derived from the degree-8 LFSR
`rc(t)`, rotation offsets derived from the (t+1)(t+2)/2 walk, and SHA3-style
padding (append `0x06`, zero-fill to the rate boundary, or the final byte
with `0x80`) applied to the message before absorption.  Per the specified
deviation, each permutation call runs rounds 1..23 only. -/

namespace KeccakRef

/-- One step of the `rc(t)` LFSR over GF(2)[x]/(x⁸+x⁶+x⁵+x⁴+1), on an 8-bit
register. -/
def lfsrStep (r : Nat) : Nat := ((r <<< 1) ^^^ (((r >>> 7) &&& 1) * 0x71)) % 256

/-- `rc(t)`: the low bit of the LFSR register after `t` steps from 1. -/
def rcBit (t : Nat) : Bool := (lfsrStep^[t] 1) &&& 1 == 1

/-- Round constant `RC[i]`: bit `2^j - 1` is `rc(7i + j)` for `j = 0..6`. -/
def roundConstant (i : Nat) : Nat :=
  (List.range 7).foldl (fun acc j => acc + if rcBit (7 * i + j) then 2 ^ (2 ^ j - 1) else 0) 0

/-- The ρ rotation offsets via the standard walk: starting from `(x,y)=(1,0)`,
step `t` assigns offset `(t+1)(t+2)/2 mod 64` to the current coordinate and
moves to `(y, (2x+3y) mod 5)`.  `(0,0)` is never visited and keeps offset 0. -/
def rhoWalk : List ((Nat × Nat) × Nat) :=
  ((List.range 24).foldl
    (fun (st : (Nat × Nat) × List ((Nat × Nat) × Nat)) t =>
      ((st.1.2, (2 * st.1.1 + 3 * st.1.2) % 5),
       st.2 ++ [(st.1, ((t + 1) * (t + 2) / 2) % 64)]))
    ((1, 0), [])).2

def rhoOffset (x y : Nat) : Nat :=
  ((rhoWalk.find? (fun e => e.1 == (x, y))).map (·.2)).getD 0

/-- θ column parity: `C[x] = A[x,0] ⊕ A[x,1] ⊕ A[x,2] ⊕ A[x,3] ⊕ A[x,4]`. -/
def thetaC (A : Nat → Nat → Nat) (x : Nat) : Nat :=
  A x 0 ^^^ A x 1 ^^^ A x 2 ^^^ A x 3 ^^^ A x 4

/-- θ offset: `D[x] = C[x-1] ⊕ rot(C[x+1], 1)`. -/
def thetaD (A : Nat → Nat → Nat) (x : Nat) : Nat :=
  thetaC A ((x + 4) % 5) ^^^ DS2API.rotl64 (thetaC A ((x + 1) % 5)) 1

def theta (A : Nat → Nat → Nat) : Nat → Nat → Nat := fun x y => A x y ^^^ thetaD A x

/-- Combined ρ and π: `A'[x,y] = rot(A[(x+3y) mod 5, x], offset[(x+3y) mod 5, x])`,
the inverse form of `B[y, (2x+3y) mod 5] = rot(A[x,y], offset[x,y])`. -/
def rhoPi (A : Nat → Nat → Nat) : Nat → Nat → Nat := fun x y =>
  DS2API.rotl64 (A ((x + 3 * y) % 5) x) (rhoOffset ((x + 3 * y) % 5) x)

/-- χ: `A'[x,y] = A[x,y] ⊕ (¬A[x+1,y] ∧ A[x+2,y])`. -/
def chi (A : Nat → Nat → Nat) : Nat → Nat → Nat := fun x y =>
  A x y ^^^ (DS2API.not64 (A ((x + 1) % 5) y) &&& A ((x + 2) % 5) y)

/-- ι: xor the round constant into lane `(0,0)`. -/
def iota (rc : Nat) (A : Nat → Nat → Nat) : Nat → Nat → Nat := fun x y =>
  if x == 0 && y == 0 then A x y ^^^ rc else A x y

def keccakRound (rc : Nat) (A : Nat → Nat → Nat) : Nat → Nat → Nat :=
  iota rc (chi (rhoPi (theta A)))

def toFun (l : List Nat) : Nat → Nat → Nat := fun x y => l.getD (x + 5 * y) 0

def ofFun (A : Nat → Nat → Nat) : List Nat :=
  (List.range 25).map (fun i => A (i % 5) (i / 5))

def roundL (l : List Nat) (rc : Nat) : List Nat := ofFun (keccakRound rc (toFun l))

/-- The deviant permutation: rounds 1..23 of the reference round function
(the round-0 constant is never applied). -/
def permRounds1To23 (l : List Nat) : List Nat :=
  (List.range' 1 23).foldl (fun st r => roundL st (roundConstant r)) l

/-- SHA3 pad10*1 with the 0x06 domain separator, at rate 136: append `0x06`,
zero-fill to the rate boundary, or the final byte with `0x80`. -/
def padSuffix (m : Nat) : List Nat :=
  if m = 135 then [0x86] else 0x06 :: (List.replicate (134 - m) 0 ++ [0x80])

def sha3Pad (data : List Nat) : List Nat := data ++ padSuffix (data.length % 136)

/-- Absorb a (padded) message block by block at rate 136.  `fuel` is a
totality device; any `fuel ≥ data.length` is sufficient. -/
def absorbAll (fuel : Nat) (st data : List Nat) : List Nat :=
  match fuel with
  | 0 => st
  | fuel + 1 =>
    if 136 ≤ data.length then
      absorbAll fuel (permRounds1To23 (DS2API.xorBlock st (data.take 136))) (data.drop 136)
    else st

/-- The reference sponge: pad, absorb from the all-zero state, and read the
first 32 bytes of the final state in little-endian lane order. -/
def deepSeekHashV1Ref (data : List Nat) : List Nat :=
  DS2API.squeeze32
    (absorbAll (sha3Pad data).length (List.replicate 25 0) (sha3Pad data))

end KeccakRef

/-- Pointwise equality of Keccak coordinate states on the 5×5 grid. -/
def EqOn5 (A B : Nat → Nat → Nat) : Prop := ∀ x, x < 5 → ∀ y, y < 5 → A x y = B x y

/-! ## String trimming

`strings.TrimSpace` as an explicit function on the character list (the
inputs of interest are ASCII; the ASCII whitespace set is modelled). -/

def isSpaceChar (c : Char) : Bool :=
  c = ' ' ∨ c = '\t' ∨ c = '\n' ∨ c = '\x0b' ∨ c = '\x0c' ∨ c = '\r'

/-- `strings.TrimSpace`: drop leading and trailing whitespace. -/
def trimSpace (s : String) : String :=
  ⟨((s.toList.dropWhile isSpaceChar).reverse.dropWhile isSpaceChar).reverse⟩

/-! ## PoW solver (solver.go)

`littleEndianInt` reverses the 32 bytes and reads them big-endian;
`targetFromDifficulty` returns `⌊2^256 / diff⌋` for positive `diff` and `nil`
(`none`) otherwise.  `solveNative` tests nonces 0, 1, 2, … against the
target, aborting when the expiry clock check fires.  The unbounded Go search
loop carries a `fuel` bound (running out of fuel models a search that has not
returned yet); the wall clock read at each iteration is an explicit
`clock : Nat → Int` oracle. -/

/-- `littleEndianInt`: reverse the bytes, then interpret big-endian
(`big.Int.SetBytes`). -/
def littleEndianInt (b : List Nat) : Nat :=
  b.reverse.foldl (fun acc x => acc * 256 + x) 0

/-- `targetFromDifficulty`: `nil` for `diff <= 0`, else `(1 << 256) / diff`. -/
def targetFromDifficulty (diff : Int) : Option Nat :=
  if diff ≤ 0 then none else some (2 ^ 256 / diff.toNat)

/-- Decimal digits of a natural number, as ASCII bytes (`strconv.FormatInt`
for non-negative values).  Fuel-structured; `fuel ≥ n` suffices. -/
def decBytesCore : Nat → Nat → List Nat
  | 0, _ => []
  | _ + 1, 0 => []
  | fuel + 1, n => decBytesCore fuel (n / 10) ++ [48 + n % 10]

def decBytes (n : Nat) : List Nat := if n = 0 then [48] else decBytesCore (n + 1) n

/-- `strconv.FormatInt(i, 10)` / `fmt.Sprintf("%d", i)` as ASCII bytes. -/
def decBytesInt (i : Int) : List Nat :=
  if i < 0 then 45 :: decBytes i.natAbs else decBytes i.toNat

/-- The hashed search string `challenge + salt + "_" + expireAt + "_" + nonce`
(`base + strconv.FormatInt(nonce, 10)` with
`prefix = fmt.Sprintf("%s_%d_", salt, expireAt)`), as bytes. -/
def powInput (challenge salt : List Nat) (expireAt : Int) (nonce : Nat) : List Nat :=
  challenge ++ salt ++ [95] ++ decBytesInt expireAt ++ [95] ++ decBytes nonce

/-- The per-nonce success test of `solveNative`:
`littleEndianInt(deepSeekHashV1(base + nonce)).Cmp(target) < 0`. -/
def powCond (challenge salt : List Nat) (expireAt : Int) (target : Nat) (nonce : Nat) : Bool :=
  decide (littleEndianInt (deepSeekHashV1 (powInput challenge salt expireAt nonce)) < target)

/-- The nonce loop of `solveNative`: at each step first the expiry abort
check, then the hash test; on success return the nonce, else advance. -/
def solveLoop (abort cond : Nat → Bool) : Nat → Nat → Option Nat
  | 0, _ => none
  | fuel + 1, n =>
    if abort n then none
    else if cond n then some n
    else solveLoop abort cond fuel (n + 1)

/-- `solveNative`: reject algorithms other than `"DeepSeekHashV1"` (after
trimming), reject non-positive difficulties (`target == nil`), then search
nonces from 0.  The Go abort condition is
`expireAt > 0 && time.Now().Unix() >= expireAt`. -/
def solveNative (algorithm : String) (challenge salt : List Nat) (difficulty : Int)
    (expireAt : Int) (clock : Nat → Int) (fuel : Nat) : Option Nat :=
  if trimSpace algorithm ≠ "DeepSeekHashV1" then none
  else
    match targetFromDifficulty difficulty with
    | none => none
    | some target =>
      solveLoop (fun n => decide (0 < expireAt ∧ expireAt ≤ clock n))
        (powCond challenge salt expireAt target) fuel 0

/-- Modelled from the spec: the external WASM Keccak-solver module
(`sha3_wasm_bg.….wasm` is a binary asset, not source of this repository).
Per §2 and §4.B it performs the same DeepSeekHashV1 nonce search over
`challenge` and `prefix = salt + "_" + expireAt + "_"` against
`2^256 / difficulty`, returning a failure status or the found nonce. -/
def wasmSolveModule (challenge salt : List Nat) (difficulty expireAt : Int)
    (fuel : Nat) : Option Nat :=
  match targetFromDifficulty difficulty with
  | none => none
  | some target =>
    solveLoop (fun _ => false) (powCond challenge salt expireAt target) fuel 0

/-- `solveWASM`: same algorithm gate as the native path; `wasmOk` stands for
"the module was loaded, instantiated and called without error" — on any wasm
failure the Go code silently falls back to `solveNative`. -/
def solveWASM (wasmOk : Bool) (algorithm : String) (challenge salt : List Nat)
    (difficulty expireAt : Int) (clock : Nat → Int) (fuel : Nat) : Option Nat :=
  if trimSpace algorithm ≠ "DeepSeekHashV1" then none
  else if wasmOk then wasmSolveModule challenge salt difficulty expireAt fuel
  else solveNative algorithm challenge salt difficulty expireAt clock fuel

/-- `Solve`: mode dispatch — `"native"` and `"python"` use the native
backend, everything else the WASM backend. -/
def Solve (mode : String) (wasmOk : Bool) (algorithm : String)
    (challenge salt : List Nat) (difficulty expireAt : Int)
    (clock : Nat → Int) (fuel : Nat) : Option Nat :=
  if mode = "native" ∨ mode = "python" then
    solveNative algorithm challenge salt difficulty expireAt clock fuel
  else solveWASM wasmOk algorithm challenge salt difficulty expireAt clock fuel

/-! ## PoW answer cache (`pow.Cache`)

Entries are an association list keyed by the fingerprint string; the wall
clock (`time.Now().Unix()`) is an explicit `now` argument. -/

structure CacheEntry where
  val : String
  expireAt : Int
deriving Repr, DecidableEq

/-- Association-list update: replace the first binding of `k`, else append. -/
def assocSet {β : Type} (m : List (String × β)) (k : String) (v : β) : List (String × β) :=
  match m with
  | [] => [(k, v)]
  | (k', v') :: rest => if k' = k then (k, v) :: rest else (k', v') :: assocSet rest k v

def assocFind {β : Type} (m : List (String × β)) (k : String) : Option β :=
  (m.find? (fun e => e.1 == k)).map (·.2)

def assocDel {β : Type} (m : List (String × β)) (k : String) : List (String × β) :=
  m.filter (fun e => ¬(e.1 == k))

/-- `Cache.Get`: a present entry with `ExpireAt > 0` that has passed is
deleted and reported as a miss; otherwise the value is returned. -/
def cacheGet (entries : List (String × CacheEntry)) (now : Int) (key : String) :
    Option String × List (String × CacheEntry) :=
  match assocFind entries key with
  | none => (none, entries)
  | some e =>
    if 0 < e.expireAt ∧ e.expireAt ≤ now then (none, assocDel entries key)
    else (some e.val, entries)

/-- `Cache.Set`: drop the write when `expireAt > 0` and already expired;
otherwise store the value with expiry `expireAt - 1`. -/
def cacheSet (entries : List (String × CacheEntry)) (now : Int) (key val : String)
    (expireAt : Int) : List (String × CacheEntry) :=
  if 0 < expireAt ∧ expireAt ≤ now then entries
  else assocSet entries key ⟨val, expireAt - 1⟩

/-! ## Account pool (`internal/accounts/pool.go`)

The pool state is the mutex-protected record `{accounts, active, refresh,
maxAccounts}`; the Go `map[string]int` counter is an association list with
`Int` values (missing keys read as 0, as in Go).  `rand.Intn(n)` is resolved
by an explicit `choice` parameter taken modulo the candidate count, and
`rand.Shuffle` by an explicit `shuffle` function parameter. -/

structure Account where
  email : String
  mobile : String
  password : String
  token : String
deriving Repr, DecidableEq, Inhabited

/-- `AccountID`: the trimmed email if non-empty, else the trimmed mobile. -/
def accountID (a : Account) : String :=
  if trimSpace a.email ≠ "" then trimSpace a.email else trimSpace a.mobile

structure PoolState where
  accounts : List Account
  active : List (String × Int)
  refresh : Bool
  maxAccounts : Nat
deriving Repr, DecidableEq

/-- Go map read with zero default: `p.active[id]`. -/
def mapGetInt (m : List (String × Int)) (k : String) : Int := (assocFind m k).getD 0

/-- The candidate index list of `Acquire`: roster indices whose id is not in
`exclude`, falling back to all indices when the filter leaves nothing. -/
def acquireCands (accounts : List Account) (exclude : List String) : List Nat :=
  let cands := (List.range accounts.length).filter
    (fun i => ¬ exclude.contains (accountID (accounts.getD i default)))
  if cands = [] then List.range accounts.length else cands

/-- The chosen roster index: `cands[rand.Intn(len(cands))]`, the random draw
resolved by `choice % len(cands)`. -/
def acquireIdx (accounts : List Account) (exclude : List String) (choice : Nat) : Nat :=
  (acquireCands accounts exclude).getD
    (choice % (acquireCands accounts exclude).length) 0

/-- `Acquire`: empty roster fails; otherwise choose among the indices not in
`exclude` (falling back to all indices when the filter leaves nothing),
increment the chosen id's counter, and return a value copy of the entry. -/
def acquire (p : PoolState) (exclude : List String) (choice : Nat) :
    Option Account × PoolState :=
  if p.accounts = [] then (none, p)
  else
    let idx := acquireIdx p.accounts exclude choice
    let id := accountID (p.accounts.getD idx default)
    (some (p.accounts.getD idx default),
      { p with active := assocSet p.active id (mapGetInt p.active id + 1) })

/-- `Release`: decrement when the counter exceeds 1, else delete the key
(a missing key reads as 0, so its release is a bare delete). -/
def release (p : PoolState) (a : Option Account) : PoolState :=
  match a with
  | none => p
  | some ac =>
    if 1 < mapGetInt p.active (accountID ac) then
      { p with active :=
          assocSet p.active (accountID ac) (mapGetInt p.active (accountID ac) - 1) }
    else
      { p with active := assocDel p.active (accountID ac) }

structure PoolStatus where
  total : Nat
  available : Int
  inUse : Nat
  activeSessions : Int
  maxAccounts : Nat
deriving Repr, DecidableEq

/-- `GetStatus`: `{total, available, in_use, active_sessions, max_accounts}`. -/
def getStatus (p : PoolState) : PoolStatus :=
  { total := p.accounts.length
    available := (p.accounts.length : Int) - p.active.length
    inUse := p.active.length
    activeSessions := (p.active.map (·.2)).sum
    maxAccounts := p.maxAccounts }

/-- `reloadLocked`: replace the roster, clamp `maxAccounts` to the roster
size, sub-sample by shuffling and truncating when the cap is smaller, and
purge counter keys not represented by the new roster. -/
def reloadLocked (shuffle : List Account → List Account) (p : PoolState)
    (newAccounts : List Account) (refresh : Bool) (maxAccounts : Int) : PoolState :=
  let accounts := newAccounts
  let maxN : Nat :=
    if maxAccounts ≤ 0 ∨ (accounts.length : Int) < maxAccounts then accounts.length
    else maxAccounts.toNat
  let accounts := if maxN < accounts.length then (shuffle accounts).take maxN else accounts
  let valid := accounts.map accountID
  { accounts := accounts
    active := p.active.filter (fun e => valid.contains e.1)
    refresh := refresh
    maxAccounts := maxN }

/-- `EnsureToken` (on a non-nil account): no-op when a token is present and
`refresh` is off; missing password or credentials fall back to an existing
token or fail with `missing credentials`; otherwise the login HTTP exchange
(modelled by the `loginResult` oracle: `.error` for transport/decode
failures, `.ok tok` for an extracted token) writes the fetched token into the
passed account value only. -/
def ensureToken (refresh : Bool) (loginResult : Except String String) (a : Account) :
    Except String Account :=
  if trimSpace a.token ≠ "" ∧ ¬ refresh then .ok a
  else if trimSpace a.password = "" ∨ (trimSpace a.email = "" ∧ trimSpace a.mobile = "") then
    (if trimSpace a.token ≠ "" then .ok a else .error "missing credentials")
  else
    match loginResult with
    | .error e => .error e
    | .ok tok =>
      if trimSpace tok = "" then .error "missing token" else .ok { a with token := tok }

/-! ### Acquire/Release operation sequences (for the counter invariant) -/

inductive PoolOp where
  | acq (exclude : List String) (choice : Nat)
  | rel (a : Option Account)
deriving Repr, DecidableEq

def applyOp (p : PoolState) (op : PoolOp) : PoolState :=
  match op with
  | .acq exclude choice => (acquire p exclude choice).2
  | .rel a => release p a

def applyOps (p : PoolState) (ops : List PoolOp) : PoolState := ops.foldl applyOp p

/-- The id a successful `Acquire` increments, as a function of the (fixed)
roster and the operation's parameters. -/
def acquiredId (accounts : List Account) (exclude : List String) (choice : Nat) :
    Option String :=
  if accounts = [] then none
  else some (accountID (accounts.getD (acquireIdx accounts exclude choice) default))

def opAcqId (accounts : List Account) : PoolOp → Option String
  | .acq e c => acquiredId accounts e c
  | .rel _ => none

def opRelId : PoolOp → Option String
  | .rel (some a) => some (accountID a)
  | _ => none

def acqCount (accounts : List Account) (ops : List PoolOp) (id : String) : Nat :=
  (ops.map (opAcqId accounts)).count (some id)

def relCount (ops : List PoolOp) (id : String) : Nat :=
  (ops.map opRelId).count (some id)

/-- A sequence is balanced when each successful `Acquire` is matched by
exactly one later `Release` of the returned account: per id, totals agree and
no prefix releases more than it acquired. -/
def Balanced (accounts : List Account) (ops : List PoolOp) : Prop :=
  ∀ id, relCount ops id = acqCount accounts ops id ∧
    ∀ n, relCount (ops.take n) id ≤ acqCount accounts (ops.take n) id

/-- The counter value Go's code maintains for `id`: increment on acquire,
decrement-or-delete on release (deleting a missing key leaves 0). -/
def goCount (accounts : List Account) (id : String) (ops : List PoolOp) : Int :=
  ops.foldl (fun c op =>
    if opAcqId accounts op = some id then c + 1
    else if opRelId op = some id then (if 1 < c then c - 1 else 0)
    else c) 0

def initPool (accounts : List Account) (refresh : Bool) (maxAccounts : Nat) : PoolState :=
  { accounts := accounts, active := [], refresh := refresh, maxAccounts := maxAccounts }

/-! ## SSE chunk parser (`internal/services/claude_stream.go`)

A chunk carries an optional string field `p` and a field `v` that is absent,
a string, or an array of sub-records; a sub-record carries an optional `p`
and an optional string `v` (a non-string `v` reads as absent, as the Go type
assertions do). -/

structure SubRec where
  p : Option String
  v : Option String
deriving Repr, DecidableEq

inductive ChunkV where
  | vNone
  | vStr (s : String)
  | vArr (items : List SubRec)
deriving Repr, DecidableEq

structure Chunk where
  p : Option String
  v : ChunkV
deriving Repr

structure Segment where
  type : String
  text : String
deriving Repr, DecidableEq

/-- One iteration of `parseChunk`'s array loop: the sub-record switch on `p`
(`status` sets `finished` on `v == "FINISHED"` and skips emission;
search/status paths skip; thinking/content paths switch `segType`), then the
emission of `v` when it is a string. -/
def parseChunkArrStep (st : List Segment × Bool × String) (item : SubRec) :
    List Segment × Bool × String :=
  let segs := st.1
  let fin := st.2.1
  let ty := st.2.2
  match item.p with
  | some p =>
    if p = "status" then (segs, fin || (item.v == some "FINISHED"), ty)
    else if p = "response/search_status" ∨ p = "response/status" then (segs, fin, ty)
    else
      let ty' :=
        if p = "response/thinking_content" ∨ p = "thinking_content" then "thinking"
        else if p = "response/content" ∨ p = "content" then "text" else ty
      match item.v with
      | some s => (segs ++ [⟨ty', s⟩], fin, ty')
      | none => (segs, fin, ty')
  | none =>
    match item.v with
    | some s => (segs ++ [⟨ty, s⟩], fin, ty)
    | none => (segs, fin, ty)

/-- `parseChunk(chunk, currentType) -> (currentType', segments, finished)`:
an empty current type defaults to `"text"`; a top-level `p` of
`response/search_status` or `response/status` returns early; a top-level `p`
of `response/thinking_content` or `response/content` switches the current
type; a string `v` emits one segment of the current type; an array `v` runs
the sub-record loop with a transient segment type seeded from the current
type. -/
def parseChunk (c : Chunk) (currentType : String) : String × List Segment × Bool :=
  let ct0 := if currentType = "" then "text" else currentType
  if c.p = some "response/search_status" ∨ c.p = some "response/status" then (ct0, [], false)
  else
    let ct :=
      if c.p = some "response/thinking_content" then "thinking"
      else if c.p = some "response/content" then "text" else ct0
    match c.v with
    | .vStr s => (ct, [⟨ct, s⟩], false)
    | .vNone => (ct, [], false)
    | .vArr items =>
      let r := items.foldl parseChunkArrStep ([], false, ct)
      (ct, r.1, r.2.1)

/-! ## Request auth phase (`internal/auth`, `DetermineModeAndToken`)

The caller key is taken post-extraction; the login HTTP exchange inside
`EnsureToken` is the `loginResult` oracle. -/

inductive AuthRes where
  | err (status : Nat) (msg : String)
  | okPass (token : String)
  | okPool (ac : Account) (token : String)
deriving Repr

/-- `DetermineModeAndToken`: missing key → 401; key not configured → pass
the key through; else `Acquire(nil)` (failure → `http.StatusTooManyRequests`
= 429) then `EnsureToken` (failure → release and 500). -/
def determineModeAndToken (callerKey : String) (keys : List String) (p : PoolState)
    (choice : Nat) (loginResult : Except String String) : AuthRes × PoolState :=
  if callerKey = "" then
    (.err 401 "Unauthorized: missing X-OA-Key or Authorization Bearer header.", p)
  else if ¬ keys.contains callerKey then (.okPass callerKey, p)
  else
    match acquire p [] choice with
    | (none, p') => (.err 429 "No accounts available in pool.", p')
    | (some acc, p') =>
      match ensureToken p.refresh loginResult acc with
      | .error _ => (.err 500 "Account login failed.", release p' (some acc))
      | .ok acc' => (.okPool acc' (trimSpace acc'.token), p')

inductive HandlerStep where
  | respond (status : Nat)
  | proceedUpstream (token : String)
deriving Repr, DecidableEq

/-- The auth prelude of the chat handlers (`OpenAIChat` and the Claude
handler): an auth error is written back immediately with the returned status
code — the handler returns before any session/PoW/completion call. -/
def chatAuthPhase (callerKey : String) (keys : List String) (p : PoolState)
    (choice : Nat) (loginResult : Except String String) : HandlerStep × PoolState :=
  match determineModeAndToken callerKey keys p choice loginResult with
  | (.err s _, p') => (.respond s, p')
  | (.okPass t, p') => (.proceedUpstream t, p')
  | (.okPool _ t, p') => (.proceedUpstream t, p')

/-! ## Cloud-sync manager (`internal/cloudsync/manager.go`)

The manager state is `{version, cursor}`.  The HTTP client is an oracle: a
pull tick is summarized by the server's answers
(`latest_version`, the two `next_cursor`s, and the versions of the applied
items), an upsert by its outcome, a resolve by its outcome. -/

structure MgrState where
  version : Int
  cursor : Int
deriving Repr, DecidableEq

structure SyncItemM where
  version : Int
deriving Repr, DecidableEq

structure PullData where
  latestVersion : Int
  nextCursor : Int
  deltaNextCursor : Int
  itemVersions : List Int
deriving Repr, DecidableEq

/-- `applyItems`' effect on the manager state: `setVersion` (monotonic) per
applied item. -/
def applyItemsVersions (vs : List Int) (s : MgrState) : MgrState :=
  vs.foldl (fun st v => if v > st.version then { st with version := v } else st) s

/-- `pullAndApply`'s state effect: apply items, then
`version = max(version, latest_version)` and
`cursor = max(cursor, list.next_cursor, delta.next_cursor)`. -/
def pullAndApply (pd : PullData) (s : MgrState) : MgrState :=
  let s1 := applyItemsVersions pd.itemVersions s
  let cursor1 := if pd.nextCursor > s.cursor then pd.nextCursor else s.cursor
  let cursor2 := if pd.deltaNextCursor > cursor1 then pd.deltaNextCursor else cursor1
  { version := if pd.latestVersion > s1.version then pd.latestVersion else s1.version
    cursor := if cursor2 > s.cursor then cursor2 else s.cursor }

inductive CallEv where
  | upsertCall (path : String) (meta : String) (base : Int)
  | listCall
  | deltaCall
  | resolveCall (path : String) (meta : String) (base : Int)
deriving Repr, DecidableEq

inductive UpsertRes where
  | ok (item : Option SyncItemM)
  | conflict (serverVersion : Int)
  | fail
deriving Repr, DecidableEq

/-- `advanceVersionCursor`: on a non-nil returned item, raise both `version`
and `cursor` to the item's version when larger. -/
def advanceVersionCursor (item : Option SyncItemM) (s : MgrState) : MgrState :=
  match item with
  | none => s
  | some it =>
    { version := if it.version > s.version then it.version else s.version
      cursor := if it.version > s.cursor then it.version else s.cursor }

/-- `upsertWithConflictRetry`, with the sequence of client calls it makes as
an explicit trace: upsert at `base_version = version`; on success advance; on
a conflict error, `pullAndApply` (a list call and a delta call), then
`ResolveConflict` with the same path and metadata at
`base_version = server_version`, and advance on its result; any other error
is fatal. -/
def upsertWithConflictRetry (path meta : String) (ur : UpsertRes)
    (pullOk : Bool) (pd : PullData) (rr : Except Unit (Option SyncItemM))
    (s : MgrState) : Except Unit (MgrState × List CallEv) :=
  match ur with
  | .ok item => .ok (advanceVersionCursor item s, [.upsertCall path meta s.version])
  | .fail => .error ()
  | .conflict sv =>
    if pullOk then
      match rr with
      | .error _ => .error ()
      | .ok resolved =>
        .ok (advanceVersionCursor resolved (pullAndApply pd s),
          [.upsertCall path meta s.version, .listCall, .deltaCall,
            .resolveCall path meta sv])
    else .error ()

end DS2API

/-! ### Further definitions are inserted above; theorems follow. -/

namespace DS2API

/-! ## List helper lemmas -/

theorem getD_set_self (l : List Nat) (i v : Nat) :
    (l.set i v).getD i 0 = if i < l.length then v else l.getD i 0 := by
  rw [List.getD_eq_getElem?_getD, List.getD_eq_getElem?_getD, List.getElem?_set_self']
  by_cases h : i < l.length
  · simp [h, List.getElem?_eq_getElem h]
  · simp [h, List.getElem?_eq_none (by omega : l.length ≤ i)]

theorem getD_foldl_set (ps : List (Nat × Nat)) (f g : Nat × Nat → Nat) (init : List Nat)
    (i : Nat) (hi : i < init.length) :
    (ps.foldl (fun l p => l.set (f p) (g p)) init).getD i 0 =
      match ps.reverse.find? (fun p => f p == i) with
      | some p => g p
      | none => init.getD i 0 := by
  induction ps generalizing init with
  | nil => rfl
  | cons p ps ih =>
    rw [List.foldl_cons, ih _ (by simp [hi]), List.reverse_cons, List.find?_append]
    cases hfind : ps.reverse.find? (fun p => f p == i) with
    | some q => simp [Option.or]
    | none =>
      simp only [Option.or, List.find?]
      by_cases hfp : f p = i
      · subst hfp
        simp [getD_set_self, hi]
      · have hb : (f p == i) = false := beq_eq_false_iff_ne.mpr hfp
        simp [hb, List.getElem?_set_ne hfp]

/-! ## C1: the per-round bridge between the source permutation and the
reference round function -/

theorem thetaC_congr {A B : Nat → Nat → Nat} (h : EqOn5 A B) {x : Nat} (hx : x < 5) :
    KeccakRef.thetaC A x = KeccakRef.thetaC B x := by
  unfold KeccakRef.thetaC
  rw [h x hx 0 (by omega), h x hx 1 (by omega), h x hx 2 (by omega),
    h x hx 3 (by omega), h x hx 4 (by omega)]

theorem theta_congr {A B : Nat → Nat → Nat} (h : EqOn5 A B) :
    EqOn5 (KeccakRef.theta A) (KeccakRef.theta B) := by
  intro x hx y hy
  unfold KeccakRef.theta KeccakRef.thetaD
  rw [h x hx y hy, thetaC_congr h (Nat.mod_lt _ (by omega)),
    thetaC_congr h (Nat.mod_lt _ (by omega))]

theorem rhoPi_congr {A B : Nat → Nat → Nat} (h : EqOn5 A B) :
    EqOn5 (KeccakRef.rhoPi A) (KeccakRef.rhoPi B) := by
  intro x hx y hy
  unfold KeccakRef.rhoPi
  rw [h _ (Nat.mod_lt _ (by omega)) x hx]

theorem chi_congr {A B : Nat → Nat → Nat} (h : EqOn5 A B) :
    EqOn5 (KeccakRef.chi A) (KeccakRef.chi B) := by
  intro x hx y hy
  unfold KeccakRef.chi
  rw [h x hx y hy, h _ (Nat.mod_lt _ (by omega)) y hy, h _ (Nat.mod_lt _ (by omega)) y hy]

theorem toFun_keccakTheta (a : List Nat) :
    EqOn5 (KeccakRef.toFun (keccakTheta a)) (KeccakRef.theta (KeccakRef.toFun a)) := by
  intro x hx y hy
  interval_cases x <;> interval_cases y <;> rfl

theorem toFun_keccakRhoPi (a1 : List Nat) :
    EqOn5 (KeccakRef.toFun (keccakRhoPi a1)) (KeccakRef.rhoPi (KeccakRef.toFun a1)) := by
  intro x hx y hy
  interval_cases x <;> interval_cases y <;>
    (simp only [KeccakRef.toFun, keccakRhoPi]
     rw [getD_foldl_set loopPairs55 rhoPiDest (rhoPiVal a1) _ _ (by decide)]
     rfl)

theorem toFun_keccakChi (b : List Nat) :
    EqOn5 (KeccakRef.toFun (keccakChi b)) (KeccakRef.chi (KeccakRef.toFun b)) := by
  intro x hx y hy
  interval_cases x <;> interval_cases y <;> rfl

theorem roundBridge (a : List Nat) :
    EqOn5 (KeccakRef.toFun (keccakChi (keccakRhoPi (keccakTheta a))))
      (KeccakRef.chi (KeccakRef.rhoPi (KeccakRef.theta (KeccakRef.toFun a)))) := by
  intro x hx y hy
  rw [toFun_keccakChi _ x hx y hy]
  exact chi_congr (fun x hx y hy => by
    rw [toFun_keccakRhoPi _ x hx y hy]
    exact rhoPi_congr (toFun_keccakTheta a) x hx y hy) x hx y hy

end DS2API

namespace DS2API

theorem keccakRound_eq_ref (a : List Nat) (rc : Nat) :
    keccakRound a rc = KeccakRef.roundL a rc := by
  have hb := roundBridge a
  apply List.ext_getElem
  · simp [keccakRound, keccakChi, KeccakRef.roundL, KeccakRef.ofFun]
  intro i h1 h2
  have hi : i < 25 := by
    simpa [KeccakRef.roundL, KeccakRef.ofFun] using h2
  have hlen : (keccakChi (keccakRhoPi (keccakTheta a))).length = 25 := by
    simp [keccakChi]
  have hR : (KeccakRef.roundL a rc)[i] =
      KeccakRef.iota rc
        (KeccakRef.chi (KeccakRef.rhoPi (KeccakRef.theta (KeccakRef.toFun a))))
        (i % 5) (i / 5) := by
    simp [KeccakRef.roundL, KeccakRef.ofFun, KeccakRef.keccakRound]
  rw [hR]
  show ((keccakChi (keccakRhoPi (keccakTheta a))).set 0
      ((keccakChi (keccakRhoPi (keccakTheta a))).getD 0 0 ^^^ rc))[i] = _
  by_cases hi0 : i = 0
  · subst hi0
    rw [List.getElem_set_self h1]
    have h00 : (keccakChi (keccakRhoPi (keccakTheta a))).getD 0 0 =
        KeccakRef.chi (KeccakRef.rhoPi (KeccakRef.theta (KeccakRef.toFun a))) 0 0 := by
      have := hb 0 (by omega) 0 (by omega)
      simpa [KeccakRef.toFun] using this
    rw [h00]
    simp [KeccakRef.iota]
  · rw [List.getElem_set_ne (by omega) h1]
    have hgd : (keccakChi (keccakRhoPi (keccakTheta a)))[i] =
        (keccakChi (keccakRhoPi (keccakTheta a))).getD i 0 := by
      rw [List.getD_eq_getElem _ _ (by omega)]
    rw [hgd]
    have htf : (keccakChi (keccakRhoPi (keccakTheta a))).getD i 0 =
        KeccakRef.toFun (keccakChi (keccakRhoPi (keccakTheta a))) (i % 5) (i / 5) := by
      unfold KeccakRef.toFun
      rw [Nat.mod_add_div i 5]
    rw [htf, hb (i % 5) (Nat.mod_lt _ (by omega)) (i / 5) (by omega)]
    have hcond : ((i % 5 == 0) && (i / 5 == 0)) = false := by
      simp only [Bool.and_eq_false_iff, beq_eq_false_iff_ne]
      omega
    simp [KeccakRef.iota, hcond]

theorem rc_table_eq : ∀ r ∈ List.range' 1 23, keccakRC.getD r 0 = KeccakRef.roundConstant r := by
  decide

theorem perm_eq_ref (l : List Nat) :
    keccakF1600Rounds1To23 l = KeccakRef.permRounds1To23 l := by
  unfold keccakF1600Rounds1To23 KeccakRef.permRounds1To23
  exact List.foldl_ext _ _ l (fun st r hr => by
    rw [rc_table_eq r hr, keccakRound_eq_ref])

end DS2API

namespace DS2API

theorem set_append_right (l1 l2 : List Nat) (n x : Nat) :
    (l1 ++ l2).set (l1.length + n) x = l1 ++ l2.set n x := by
  simp [List.set_append]

theorem set_append_len (l1 l2 : List Nat) (n x : Nat) (hn : l1.length ≤ n) :
    (l1 ++ l2).set n x = l1 ++ l2.set (n - l1.length) x := by
  have h := set_append_right l1 l2 (n - l1.length) x
  rw [show l1.length + (n - l1.length) = n from by omega] at h
  exact h

theorem replicate_set_last (k v : Nat) :
    (List.replicate (k + 1) (0 : Nat)).set k v = List.replicate k 0 ++ [v] := by
  induction k with
  | zero => rfl
  | succ k ih =>
    show (0 :: List.replicate (k + 1) 0).set (k + 1) v = _
    rw [show ((0 : Nat) :: List.replicate (k + 1) 0).set (k + 1) v
        = 0 :: (List.replicate (k + 1) 0).set k v from rfl, ih]
    simp [List.replicate_succ]

theorem getD_replicate_lt (n m v : Nat) (h : m < n) : (List.replicate n v).getD m 0 = v := by
  rw [List.getD_eq_getElem _ _ (by simpa using h)]
  simp

theorem finalizeBlock_eq_pad (rem : List Nat) (h : rem.length < 136) :
    finalizeBlock rem = KeccakRef.sha3Pad rem := by
  unfold finalizeBlock KeccakRef.sha3Pad KeccakRef.padSuffix
  dsimp only
  rw [Nat.mod_eq_of_lt h]
  by_cases h135 : rem.length = 135
  · rw [if_pos h135, h135, show (136 - 135 : Nat) = 1 from rfl]
    have e1 : (rem ++ List.replicate 1 0).set 135 0x06 = rem ++ [0x06] := by
      rw [set_append_len _ _ _ _ (by omega : rem.length ≤ 135),
        show 135 - rem.length = 0 from by omega]
      rfl
    rw [e1]
    have e2 : (rem ++ [0x06]).getD 135 0 = 0x06 := by
      rw [List.getD_append_right _ _ _ _ (by omega),
        show 135 - rem.length = 0 from by omega]
      rfl
    rw [e2, show (0x06 : Nat) ||| 0x80 = 0x86 from by decide]
    rw [set_append_len _ _ _ _ (by omega : rem.length ≤ 135),
      show 135 - rem.length = 0 from by omega]
    rfl
  · rw [if_neg h135]
    have hk : 136 - rem.length = (135 - rem.length) + 1 := by omega
    rw [hk, List.replicate_succ]
    have e1 : (rem ++ 0 :: List.replicate (135 - rem.length) 0).set rem.length 0x06
        = rem ++ 0x06 :: List.replicate (135 - rem.length) 0 := by
      rw [set_append_len _ _ _ _ (Nat.le_refl _), Nat.sub_self]
      rfl
    rw [e1]
    have e2 : (rem ++ 0x06 :: List.replicate (135 - rem.length) 0).getD 135 0 = 0 := by
      rw [List.getD_append_right _ _ _ _ (by omega)]
      rw [show 135 - rem.length = (134 - rem.length) + 1 from by omega]
      rw [show ((0x06 : Nat) :: List.replicate ((134 - rem.length) + 1) 0).getD ((134 - rem.length) + 1) 0
          = (List.replicate ((134 - rem.length) + 1) 0).getD (134 - rem.length) 0 from rfl]
      exact getD_replicate_lt _ _ _ (by omega)
    rw [e2, show (0 : Nat) ||| 0x80 = 0x80 from by decide]
    have e3 : (rem ++ 0x06 :: List.replicate (135 - rem.length) 0).set 135 0x80
        = rem ++ 0x06 :: (List.replicate (134 - rem.length) 0 ++ [0x80]) := by
      rw [set_append_len _ _ _ _ (by omega)]
      rw [show 135 - rem.length = (134 - rem.length) + 1 from by omega]
      rw [show ((0x06 : Nat) :: List.replicate ((134 - rem.length) + 1) 0).set ((134 - rem.length) + 1) 0x80
          = 0x06 :: (List.replicate ((134 - rem.length) + 1) 0).set (134 - rem.length) 0x80 from rfl]
      rw [replicate_set_last]
    rw [e3]

end DS2API

namespace DS2API

theorem padSuffix_length (m : Nat) (hm : m < 136) :
    (KeccakRef.padSuffix m).length = 136 - m := by
  unfold KeccakRef.padSuffix
  by_cases h : m = 135
  · simp [h]
  · simp [h]
    omega

theorem sha3Pad_length_small (data : List Nat) (h : data.length < 136) :
    (KeccakRef.sha3Pad data).length = 136 := by
  unfold KeccakRef.sha3Pad
  rw [List.length_append, Nat.mod_eq_of_lt h, padSuffix_length _ h]
  omega

theorem sha3Pad_length (data : List Nat) :
    (KeccakRef.sha3Pad data).length = data.length + (136 - data.length % 136) := by
  unfold KeccakRef.sha3Pad
  rw [List.length_append, padSuffix_length _ (Nat.mod_lt _ (by omega))]

theorem sha3Pad_take (data : List Nat) (h : 136 ≤ data.length) :
    (KeccakRef.sha3Pad data).take 136 = data.take 136 := by
  unfold KeccakRef.sha3Pad
  exact List.take_append_of_le_length h

theorem sha3Pad_drop (data : List Nat) (h : 136 ≤ data.length) :
    (KeccakRef.sha3Pad data).drop 136 = KeccakRef.sha3Pad (data.drop 136) := by
  unfold KeccakRef.sha3Pad
  rw [List.drop_append_of_le_length h, List.length_drop]
  have : (data.length - 136) % 136 = data.length % 136 := by omega
  rw [this]

theorem absorbAll_single (fuel : Nat) (st blk : List Nat) (hb : blk.length = 136) :
    KeccakRef.absorbAll (fuel + 1) st blk = KeccakRef.permRounds1To23 (xorBlock st blk) := by
  show (if 136 ≤ blk.length then
      KeccakRef.absorbAll fuel (KeccakRef.permRounds1To23 (xorBlock st (blk.take 136)))
        (blk.drop 136)
    else st) = _
  rw [if_pos (by omega), List.take_of_length_le (by omega), List.drop_eq_nil_of_le (by omega)]
  cases fuel <;> simp [KeccakRef.absorbAll]

theorem absorb_eq_ref (fuel : Nat) : ∀ (data st : List Nat), data.length ≤ fuel →
    KeccakRef.absorbAll (fuel + 136) st (KeccakRef.sha3Pad data) =
      KeccakRef.permRounds1To23
        (xorBlock (absorbLoop fuel st data).1 (finalizeBlock (absorbLoop fuel st data).2)) := by
  induction fuel with
  | zero =>
    intro data st h
    have hd : data = [] := List.eq_nil_of_length_eq_zero (by omega)
    subst hd
    show KeccakRef.absorbAll (135 + 1) st (KeccakRef.sha3Pad []) = _
    rw [absorbAll_single _ _ _ (sha3Pad_length_small [] (by simp))]
    show _ = KeccakRef.permRounds1To23 (xorBlock st (finalizeBlock []))
    rw [finalizeBlock_eq_pad [] (by simp)]
  | succ fuel ih =>
    intro data st h
    by_cases hlen : 136 ≤ data.length
    · have hpadlen : 136 ≤ (KeccakRef.sha3Pad data).length := by
        rw [sha3Pad_length]
        omega
      rw [show fuel + 1 + 136 = (fuel + 136) + 1 from by omega]
      show (if 136 ≤ (KeccakRef.sha3Pad data).length then
          KeccakRef.absorbAll (fuel + 136)
            (KeccakRef.permRounds1To23 (xorBlock st ((KeccakRef.sha3Pad data).take 136)))
            ((KeccakRef.sha3Pad data).drop 136)
        else st) = _
      rw [if_pos hpadlen, sha3Pad_take _ hlen, sha3Pad_drop _ hlen]
      rw [ih (data.drop 136) _ (by rw [List.length_drop]; omega)]
      have hsrc : absorbLoop (fuel + 1) st data
          = absorbLoop fuel (keccakF1600Rounds1To23 (xorBlock st (data.take 136)))
              (data.drop 136) := by
        show (if 136 ≤ data.length then _ else (st, data)) = _
        rw [if_pos hlen]
      rw [hsrc, perm_eq_ref]
    · have hsrc : absorbLoop (fuel + 1) st data = (st, data) := by
        show (if 136 ≤ data.length then _ else (st, data)) = (st, data)
        rw [if_neg hlen]
      rw [hsrc]
      have hlt : data.length < 136 := by omega
      rw [show fuel + 1 + 136 = (fuel + 136) + 1 from by omega]
      rw [absorbAll_single _ _ _ (sha3Pad_length_small _ hlt), finalizeBlock_eq_pad _ hlt]

theorem absorbAll_fuel_irrel (f1 : Nat) : ∀ (f2 : Nat) (st d : List Nat),
    d.length ≤ f1 → d.length ≤ f2 →
    KeccakRef.absorbAll f1 st d = KeccakRef.absorbAll f2 st d := by
  induction f1 with
  | zero =>
    intro f2 st d h1 h2
    have hd : d = [] := List.eq_nil_of_length_eq_zero (by omega)
    subst hd
    cases f2 with
    | zero => rfl
    | succ f2 =>
      show st = (if 136 ≤ ([] : List Nat).length then _ else st)
      rw [if_neg (by simp)]
  | succ f1 ih =>
    intro f2 st d h1 h2
    by_cases hlen : 136 ≤ d.length
    · cases f2 with
      | zero => omega
      | succ f2 =>
        show (if 136 ≤ d.length then _ else st) = (if 136 ≤ d.length then _ else st)
        rw [if_pos hlen, if_pos hlen]
        exact ih f2 _ _ (by rw [List.length_drop]; omega) (by rw [List.length_drop]; omega)
    · cases f2 with
      | zero =>
        have hd : d = [] := List.eq_nil_of_length_eq_zero (by omega)
        subst hd
        show (if (136 : Nat) ≤ ([] : List Nat).length then _ else st) = st
        rw [if_neg (by simp)]
      | succ f2 =>
        show (if 136 ≤ d.length then _ else st) = (if 136 ≤ d.length then _ else st)
        rw [if_neg hlen, if_neg hlen]

/-- C1: `deepSeekHashV1` equals the reference Keccak-f[1600] sponge with rate
136 and SHA3-style padding (append `0x06`, zero-pad to the rate boundary, OR
the final byte with `0x80`), where each permutation call executes only rounds
1..23 of the standard 24-round loop (round constants and rotation offsets
derived from their FIPS 202 definitions; the round-0 constant is never
applied), and for every byte-string input the output is exactly the first 32
bytes of the final state read in little-endian lane order. -/
theorem deepSeekHashV1_eq_reference (data : List Nat) :
    deepSeekHashV1 data = KeccakRef.deepSeekHashV1Ref data := by
  unfold deepSeekHashV1 KeccakRef.deepSeekHashV1Ref
  dsimp only
  rw [perm_eq_ref, ← absorb_eq_ref data.length data (List.replicate 25 0) (Nat.le_refl _)]
  congr 1
  exact absorbAll_fuel_irrel _ _ _ _ (by have h := sha3Pad_length data; omega)
    (by have h := sha3Pad_length data; omega)

end DS2API

namespace DS2API

/-! ## Hash output bound -/

theorem littleEndianInt_cons (b : Nat) (rest : List Nat) :
    littleEndianInt (b :: rest) = littleEndianInt rest * 256 + b := by
  unfold littleEndianInt
  rw [List.reverse_cons, List.foldl_append]
  rfl

theorem littleEndianInt_lt_pow (l : List Nat) (h : ∀ b ∈ l, b < 256) :
    littleEndianInt l < 256 ^ l.length := by
  induction l with
  | nil => simp [littleEndianInt]
  | cons b rest ih =>
    rw [littleEndianInt_cons, List.length_cons, pow_succ]
    have h1 : littleEndianInt rest < 256 ^ rest.length :=
      ih (fun x hx => h x (List.mem_cons_of_mem _ hx))
    have h2 : b < 256 := h b (List.mem_cons_self b rest)
    have := Nat.mul_le_mul_right 256 (Nat.le_sub_one_of_lt h1)
    omega

theorem squeeze32_length (st : List Nat) : (squeeze32 st).length = 32 := by
  simp [squeeze32]

theorem squeeze32_bytes (st : List Nat) : ∀ b ∈ squeeze32 st, b < 256 := by
  intro b hb
  unfold squeeze32 at hb
  obtain ⟨k, -, rfl⟩ := List.mem_map.mp hb
  exact Nat.mod_lt _ (by omega)

/-- Every `deepSeekHashV1` output, read little-endian, is below `2^256`. -/
theorem deepSeekHashV1_lt (data : List Nat) :
    littleEndianInt (deepSeekHashV1 data) < 2 ^ 256 := by
  have h1 : deepSeekHashV1 data
      = squeeze32 (keccakF1600Rounds1To23
          (xorBlock (absorbLoop data.length (List.replicate 25 0) data).1
            (finalizeBlock (absorbLoop data.length (List.replicate 25 0) data).2))) := rfl
  rw [h1]
  have h2 := littleEndianInt_lt_pow
    (squeeze32 (keccakF1600Rounds1To23
      (xorBlock (absorbLoop data.length (List.replicate 25 0) data).1
        (finalizeBlock (absorbLoop data.length (List.replicate 25 0) data).2))))
    (squeeze32_bytes _)
  rw [squeeze32_length, show (256 : Nat) ^ 32 = 2 ^ 256 from by norm_num] at h2
  exact h2

/-! ## Solve-loop characterization -/

theorem solveLoop_some (abort cond : Nat → Bool) (fuel : Nat) :
    ∀ (k n : Nat), solveLoop abort cond fuel k = some n →
      cond n = true ∧ (∀ m, k ≤ m → m < n → cond m = false) ∧ k ≤ n := by
  induction fuel with
  | zero => intro k n h; exact absurd h (by simp [solveLoop])
  | succ fuel ih =>
    intro k n h
    unfold solveLoop at h
    by_cases ha : abort k
    · rw [if_pos ha] at h; exact absurd h (by simp)
    · rw [if_neg ha] at h
      by_cases hc : cond k
      · rw [if_pos hc] at h
        obtain rfl : k = n := by simpa using h
        exact ⟨hc, fun m h1 h2 => by omega, Nat.le_refl _⟩
      · rw [if_neg hc] at h
        obtain ⟨c1, c2, c3⟩ := ih (k + 1) n h
        refine ⟨c1, fun m h1 h2 => ?_, by omega⟩
        by_cases hm : m = k
        · subst hm; simpa using hc
        · exact c2 m (by omega) h2

theorem solveLoop_first (abort cond : Nat → Bool) (fuel k : Nat)
    (h1 : abort k = false) (h2 : cond k = true) :
    solveLoop abort cond (fuel + 1) k = some k := by
  unfold solveLoop
  rw [h1, h2]
  rfl

/-- C2: whenever the native solver returns a nonce `n` for a positive
difficulty `d`, the little-endian value of
`DeepSeekHashV1(challenge ‖ salt ‖ "_" ‖ decimal(expireAt) ‖ "_" ‖ decimal(n))`
is strictly below `⌊2^256 / d⌋`, and `n` is the least such nonce (nonces are
tested from 0 in increasing order). -/
theorem solveNative_least_nonce (algorithm : String) (challenge salt : List Nat)
    (difficulty expireAt : Int) (clock : Nat → Int) (fuel n : Nat)
    (hd : 0 < difficulty)
    (hs : solveNative algorithm challenge salt difficulty expireAt clock fuel = some n) :
    littleEndianInt (deepSeekHashV1 (powInput challenge salt expireAt n))
        < 2 ^ 256 / difficulty.toNat
      ∧ ∀ m, m < n →
        ¬ littleEndianInt (deepSeekHashV1 (powInput challenge salt expireAt m))
            < 2 ^ 256 / difficulty.toNat := by
  unfold solveNative at hs
  by_cases halg : trimSpace algorithm ≠ "DeepSeekHashV1"
  · rw [if_pos halg] at hs; exact absurd hs (by simp)
  · rw [if_neg halg] at hs
    unfold targetFromDifficulty at hs
    rw [if_neg (by omega)] at hs
    obtain ⟨c1, c2, -⟩ := solveLoop_some _ _ _ _ _ hs
    refine ⟨by simpa [powCond] using c1, fun m hm => ?_⟩
    have := c2 m (Nat.zero_le m) hm
    simpa [powCond] using this

/-- C2 witness: at difficulty 1 with empty challenge and salt, the native
solver returns nonce 0 and the theorem's conclusions hold there. -/
theorem solveNative_least_nonce_witness :
    (0 : Int) < 1 ∧
    solveNative "DeepSeekHashV1" [] [] 1 0 (fun _ => 0) 1 = some 0 ∧
    (littleEndianInt (deepSeekHashV1 (powInput [] [] 0 0)) < 2 ^ 256 / (1 : Int).toNat
      ∧ ∀ m, m < 0 →
        ¬ littleEndianInt (deepSeekHashV1 (powInput [] [] 0 m)) < 2 ^ 256 / (1 : Int).toNat) := by
  have hd : (0 : Int) < 1 := by decide
  have hs : solveNative "DeepSeekHashV1" [] [] 1 0 (fun _ => 0) 1 = some 0 := by
    unfold solveNative
    rw [if_neg (by decide)]
    show solveLoop _ (powCond [] [] 0 (2 ^ 256 / (1 : Int).toNat)) 1 0 = some 0
    have h0 : powCond [] [] 0 (2 ^ 256 / (1 : Int).toNat) 0 = true := by
      have := deepSeekHashV1_lt (powInput [] [] 0 0)
      simp only [powCond, decide_eq_true_eq]
      calc littleEndianInt (deepSeekHashV1 (powInput [] [] 0 0)) < 2 ^ 256 := this
        _ = 2 ^ 256 / (1 : Int).toNat := by norm_num
    exact solveLoop_first _ _ 0 0 (by decide) h0
  exact ⟨hd, hs, solveNative_least_nonce "DeepSeekHashV1" [] [] 1 0 (fun _ => 0) 1 0 hd hs⟩

end DS2API

namespace DS2API

/-- C3 counterexample: difficulty 0 satisfies `d ≤ 1` and the expiry
(1000) is not reached by the clock (constant 0), yet `Solve` on the native
backend returns failure (`none`, i.e. `(0, false)`), not `(0, true)` as the
claim states. -/
theorem solve_d_le_one_counterexample :
    (0 : Int) ≤ 1 ∧ (0 : Int) < 1000 ∧
      Solve "native" true "DeepSeekHashV1" [] [] 0 1000 (fun _ => 0) 5 = none := by
  refine ⟨by decide, by decide, ?_⟩
  unfold Solve
  rw [if_pos (Or.inl rfl)]
  unfold solveNative
  rw [if_neg (by decide)]
  rfl

/-- C3 (amended): for every challenge with algorithm `"DeepSeekHashV1"`,
**positive** difficulty `d ≤ 1` (the code rejects `d ≤ 0` outright), and an
expiry not reached at the first iteration, the solver returns nonce 0 with
success, in both the native and the WASM backend (the WASM module per its
spec model, and the silent fallback path). -/
theorem solve_d_one_returns_zero (mode : String) (wasmOk : Bool) (algorithm : String)
    (challenge salt : List Nat) (difficulty expireAt : Int) (clock : Nat → Int) (fuel : Nat)
    (halg : trimSpace algorithm = "DeepSeekHashV1")
    (hd0 : 0 < difficulty) (hd1 : difficulty ≤ 1)
    (hexp : 0 < expireAt → clock 0 < expireAt)
    (hfuel : 0 < fuel) :
    Solve mode wasmOk algorithm challenge salt difficulty expireAt clock fuel = some 0 := by
  have hdiff : difficulty = 1 := by omega
  subst hdiff
  obtain ⟨f, rfl⟩ : ∃ f, fuel = f + 1 := ⟨fuel - 1, by omega⟩
  have htarget : targetFromDifficulty 1 = some (2 ^ 256) := by
    unfold targetFromDifficulty
    rw [if_neg (by omega)]
    norm_num
  have hcond : powCond challenge salt expireAt (2 ^ 256) 0 = true := by
    simp only [powCond, decide_eq_true_eq]
    exact deepSeekHashV1_lt _
  have habort : (decide (0 < expireAt ∧ expireAt ≤ clock 0)) = false := by
    simp only [decide_eq_false_iff_not]
    rintro ⟨h1, h2⟩
    have := hexp h1
    omega
  have hnative : solveNative algorithm challenge salt 1 expireAt clock (f + 1) = some 0 := by
    unfold solveNative
    rw [if_neg (by rw [halg]; simp), htarget]
    exact solveLoop_first _ _ f 0 habort hcond
  unfold Solve
  by_cases hm : mode = "native" ∨ mode = "python"
  · rw [if_pos hm]
    exact hnative
  · rw [if_neg hm]
    unfold solveWASM
    rw [if_neg (by rw [halg]; simp)]
    by_cases hw : wasmOk
    · rw [if_pos hw]
      unfold wasmSolveModule
      rw [htarget]
      exact solveLoop_first _ _ f 0 rfl hcond
    · rw [if_neg hw]
      exact hnative

/-- C3 witness: concrete instantiation (WASM mode with fallback available,
difficulty 1, unexpired challenge). -/
theorem solve_d_one_returns_zero_witness :
    trimSpace "DeepSeekHashV1" = "DeepSeekHashV1" ∧ (0 : Int) < 1 ∧ (1 : Int) ≤ 1 ∧
      ((0 : Int) < 100 → (0 : Int) < 100) ∧ (0 : Nat) < 3 ∧
      Solve "wasm" true "DeepSeekHashV1" [1] [2] 1 100 (fun _ => 0) 3 = some 0 :=
  ⟨by decide, by decide, by decide, fun _ => by decide, by decide,
    solve_d_one_returns_zero "wasm" true "DeepSeekHashV1" [1] [2] 1 100 (fun _ => 0) 3
      (by decide) (by decide) (by decide) (fun _ => by decide) (by decide)⟩

theorem assocFind_assocSet_self {β : Type} (m : List (String × β)) (k : String) (v : β) :
    assocFind (assocSet m k v) k = some v := by
  induction m with
  | nil => simp [assocSet, assocFind]
  | cons e rest ih =>
    by_cases he : e.1 = k
    · simp [assocSet, he, assocFind]
    · simp only [assocSet, if_neg he]
      simpa [assocFind, List.find?, show (e.1 == k) = false from by simpa using he] using ih

/-- C10: a PoW-cache `Set` with `expire_at ≤ 0` stores the entry (with stored
expiry `expire_at - 1`), and any later `Get` of that key returns the stored
value and leaves the cache unchanged (no delete-on-read), for every read
clock value: such entries never self-expire. -/
theorem cacheSet_nonpositive_never_expires (entries : List (String × CacheEntry))
    (now now' : Int) (key val : String) (expireAt : Int) (h : expireAt ≤ 0) :
    assocFind (cacheSet entries now key val expireAt) key = some ⟨val, expireAt - 1⟩ ∧
    cacheGet (cacheSet entries now key val expireAt) now' key
      = (some val, cacheSet entries now key val expireAt) := by
  have hstore : cacheSet entries now key val expireAt
      = assocSet entries key ⟨val, expireAt - 1⟩ := by
    unfold cacheSet
    rw [if_neg (by omega)]
  have hfind := assocFind_assocSet_self entries key (⟨val, expireAt - 1⟩ : CacheEntry)
  refine ⟨hstore ▸ hfind, ?_⟩
  unfold cacheGet
  rw [hstore, hfind]
  dsimp only
  rw [if_neg (by omega)]

/-- C10 witness. -/
theorem cacheSet_nonpositive_never_expires_witness :
    (0 : Int) ≤ 0 ∧
    assocFind (cacheSet [] 5 "k" "v" 0) "k" = some ⟨"v", -1⟩ ∧
    cacheGet (cacheSet [] 5 "k" "v" 0) 99 "k" = (some "v", cacheSet [] 5 "k" "v" 0) :=
  ⟨by decide, (cacheSet_nonpositive_never_expires [] 5 99 "k" "v" 0 (by decide)).1,
    (cacheSet_nonpositive_never_expires [] 5 99 "k" "v" 0 (by decide)).2⟩

end DS2API

namespace DS2API

/-- C6 counterexample: a top-level `p` of `"thinking_content"` (the short
form, without the `response/` path) does not switch the segment type: the
chunk `{p:"thinking_content", v:"hi"}` arriving with current type `"text"`
emits a `"text"` segment, where the claim predicts a thinking segment. -/
theorem parseChunk_short_form_counterexample :
    parseChunk ⟨some "thinking_content", .vStr "hi"⟩ "text"
      = ("text", [⟨"text", "hi"⟩], false) ∧ ("text" : String) ≠ "thinking" := by
  exact ⟨rfl, by decide⟩

/-- C6 (amended): at top level only the `response/`-prefixed discriminators
switch the current segment type (`response/thinking_content` → thinking,
`response/content` → text); the short forms `thinking_content` / `content`
leave the top-level type unchanged and act only as transient sub-record
discriminators inside an array `v`, where the switched type persists for the
remaining sub-records.  A chunk whose `v` is a string emits exactly one
segment carrying the (possibly switched) current type, and the switched type
is returned as the new current type for subsequent chunks. -/
theorem parseChunk_type_switching :
    (∀ ct s, parseChunk ⟨some "response/thinking_content", ChunkV.vStr s⟩ ct
        = ("thinking", [⟨"thinking", s⟩], false)) ∧
    (∀ ct s, parseChunk ⟨some "response/content", ChunkV.vStr s⟩ ct
        = ("text", [⟨"text", s⟩], false)) ∧
    (∀ ct s, ct ≠ "" → parseChunk ⟨some "thinking_content", ChunkV.vStr s⟩ ct
        = (ct, [⟨ct, s⟩], false)) ∧
    (∀ ct s, ct ≠ "" → parseChunk ⟨some "content", ChunkV.vStr s⟩ ct
        = (ct, [⟨ct, s⟩], false)) ∧
    (∀ ct s t, ct ≠ "" →
      parseChunk ⟨none, ChunkV.vArr [⟨some "thinking_content", some s⟩, ⟨none, some t⟩]⟩ ct
        = (ct, [⟨"thinking", s⟩, ⟨"thinking", t⟩], false)) ∧
    (∀ ct s t, ct ≠ "" →
      parseChunk ⟨none, ChunkV.vArr [⟨some "content", some s⟩, ⟨none, some t⟩]⟩ ct
        = (ct, [⟨"text", s⟩, ⟨"text", t⟩], false)) := by
  refine ⟨fun ct s => rfl, fun ct s => rfl, ?_, ?_, ?_, ?_⟩
  · intro ct s h
    unfold parseChunk
    simp [if_neg h]
  · intro ct s h
    unfold parseChunk
    simp [if_neg h]
  · intro ct s t h
    unfold parseChunk parseChunkArrStep
    simp [if_neg h]
  · intro ct s t h
    unfold parseChunk parseChunkArrStep
    simp [if_neg h]

/-- C6 witness: the amended behaviors at concrete inputs. -/
theorem parseChunk_type_switching_witness :
    parseChunk ⟨some "response/thinking_content", ChunkV.vStr "a"⟩ "text"
        = ("thinking", [⟨"thinking", "a"⟩], false) ∧
    ("text" : String) ≠ "" ∧
    parseChunk ⟨some "thinking_content", ChunkV.vStr "b"⟩ "text"
        = ("text", [⟨"text", "b"⟩], false) ∧
    parseChunk ⟨none, ChunkV.vArr [⟨some "thinking_content", some "c"⟩, ⟨none, some "d"⟩]⟩ "text"
        = ("text", [⟨"thinking", "c"⟩, ⟨"thinking", "d"⟩], false) :=
  ⟨parseChunk_type_switching.1 "text" "a", by decide,
    parseChunk_type_switching.2.2.1 "text" "b" (by decide),
    parseChunk_type_switching.2.2.2.2.1 "text" "c" "d" (by decide)⟩

/-- C7 counterexample: with caller key `"k"` configured and an empty roster,
the auth phase responds with HTTP 429 (`http.StatusTooManyRequests`), not
503 as the claim states. -/
theorem acquire_failure_status_counterexample :
    chatAuthPhase "k" ["k"] (initPool [] false 0) 0 (.ok "tok")
      = (.respond 429, initPool [] false 0) ∧ (429 : Nat) ≠ 503 :=
  ⟨rfl, by decide⟩

/-- C7 (amended): for every chat request whose caller key matches a
configured pool key, a failed `Acquire` (empty roster) makes the gateway
respond with HTTP 429 (Too Many Requests), and a failed `EnsureToken` makes
it respond with HTTP 500, in both cases returning before any upstream
completion call (the `.respond` outcome is written back immediately). -/
theorem chat_auth_failure_statuses (callerKey : String) (keys : List String)
    (p : PoolState) (choice : Nat) (loginResult : Except String String)
    (hkey : callerKey ≠ "") (hin : keys.contains callerKey = true) :
    (p.accounts = [] →
      chatAuthPhase callerKey keys p choice loginResult = (.respond 429, p)) ∧
    (∀ acc p', acquire p [] choice = (some acc, p') →
      ∀ e, ensureToken p.refresh loginResult acc = .error e →
      chatAuthPhase callerKey keys p choice loginResult
        = (.respond 500, release p' (some acc))) := by
  constructor
  · intro hnil
    unfold chatAuthPhase determineModeAndToken
    rw [if_neg hkey, if_neg (not_not_intro hin)]
    have hacq : acquire p [] choice = (none, p) := by
      unfold acquire
      rw [if_pos hnil]
    rw [hacq]
  · intro acc p' hacq e hens
    unfold chatAuthPhase determineModeAndToken
    rw [if_neg hkey, if_neg (not_not_intro hin), hacq]
    dsimp only
    rw [hens]

/-- C7 witness: both failure modes at concrete inputs. -/
theorem chat_auth_failure_statuses_witness :
    ("k" : String) ≠ "" ∧ (["k"] : List String).contains "k" = true ∧
    chatAuthPhase "k" ["k"] (initPool [] false 0) 0 (.ok "tok") = (.respond 429, initPool [] false 0) ∧
    (acquire (initPool [⟨"a@x", "", "pw", ""⟩] false 1) [] 0 =
      (some ⟨"a@x", "", "pw", ""⟩,
        { initPool [⟨"a@x", "", "pw", ""⟩] false 1 with active := [("a@x", 1)] })) ∧
    ensureToken false (.error "login down") ⟨"a@x", "", "pw", ""⟩ = .error "login down" ∧
    chatAuthPhase "k" ["k"] (initPool [⟨"a@x", "", "pw", ""⟩] false 1) 0 (.error "login down")
      = (.respond 500,
          release { initPool [⟨"a@x", "", "pw", ""⟩] false 1 with active := [("a@x", 1)] }
            (some ⟨"a@x", "", "pw", ""⟩)) := by
  have h1 : ("k" : String) ≠ "" := by decide
  have h2 : (["k"] : List String).contains "k" = true := by decide
  have hacq : acquire (initPool [⟨"a@x", "", "pw", ""⟩] false 1) [] 0 =
      (some ⟨"a@x", "", "pw", ""⟩,
        { initPool [⟨"a@x", "", "pw", ""⟩] false 1 with active := [("a@x", 1)] }) := rfl
  have hens : ensureToken false (.error "login down") (⟨"a@x", "", "pw", ""⟩ : Account)
      = .error "login down" := rfl
  refine ⟨h1, h2, ?_, hacq, hens, ?_⟩
  · exact (chat_auth_failure_statuses "k" ["k"] (initPool [] false 0) 0 (.ok "tok") h1 h2).1 rfl
  · exact (chat_auth_failure_statuses "k" ["k"] (initPool [⟨"a@x", "", "pw", ""⟩] false 1) 0
      (.error "login down") h1 h2).2 _ _ hacq _ hens

end DS2API

namespace DS2API

/-- C8: on a conflict carrying `server_version`, the manager pulls (one list
call, one delta call) and then resolves at `base_version = server_version`
with the same path and metadata; every advance on a returned item raises
`version` and `cursor` to `max(previous, item.version)`; in the concrete
scenario (first upsert conflicts with server_version 7, the recovery pull
reports latest_version 7, ResolveConflict returns version 8) the manager
ends with version = 8 and cursor = 8. -/
theorem upsertWithConflictRetry_spec (path meta : String) (sv : Int) (pd : PullData)
    (item : SyncItemM) (s : MgrState) :
    (∀ (it : SyncItemM) (st : MgrState), advanceVersionCursor (some it) st
        = ⟨max st.version it.version, max st.cursor it.version⟩) ∧
    upsertWithConflictRetry path meta (.conflict sv) true pd (.ok (some item)) s
      = .ok (advanceVersionCursor (some item) (pullAndApply pd s),
          [.upsertCall path meta s.version, .listCall, .deltaCall,
            .resolveCall path meta sv]) ∧
    upsertWithConflictRetry path meta (.conflict 7) true ⟨7, 0, 0, []⟩ (.ok (some ⟨8⟩)) ⟨0, 0⟩
      = .ok (⟨8, 8⟩,
          [.upsertCall path meta 0, .listCall, .deltaCall, .resolveCall path meta 7]) := by
  refine ⟨?_, rfl, ?_⟩
  · intro it st
    unfold advanceVersionCursor
    dsimp only
    have h1 : (if it.version > st.version then it.version else st.version)
        = max st.version it.version := by
      rw [Int.max_def]
      by_cases h : it.version > st.version
      · rw [if_pos h, if_pos (by omega)]
      · rw [if_neg h]
        by_cases h2 : st.version ≤ it.version
        · rw [if_pos h2]; omega
        · rw [if_neg h2]
    have h2 : (if it.version > st.cursor then it.version else st.cursor)
        = max st.cursor it.version := by
      rw [Int.max_def]
      by_cases h : it.version > st.cursor
      · rw [if_pos h, if_pos (by omega)]
      · rw [if_neg h]
        by_cases h2 : st.cursor ≤ it.version
        · rw [if_pos h2]; omega
        · rw [if_neg h2]
    rw [h1, h2]
  · rfl

theorem acquireCands_sub (accounts : List Account) (exclude : List String) :
    ∀ i ∈ acquireCands accounts exclude, i < accounts.length := by
  intro i hi
  unfold acquireCands at hi
  by_cases hcc : (List.range accounts.length).filter
      (fun i => ¬ exclude.contains (accountID (accounts.getD i default))) = []
  · rw [if_pos hcc] at hi
    simpa using hi
  · rw [if_neg hcc] at hi
    have := List.mem_filter.mp hi
    simpa using this.1

theorem acquireCands_ne_nil (accounts : List Account) (exclude : List String)
    (h : accounts ≠ []) : acquireCands accounts exclude ≠ [] := by
  unfold acquireCands
  by_cases hcc : (List.range accounts.length).filter
      (fun i => ¬ exclude.contains (accountID (accounts.getD i default))) = []
  · rw [if_pos hcc]
    have : 0 < accounts.length := List.length_pos_of_ne_nil h
    simpa using Nat.pos_iff_ne_zero.mp this
  · rw [if_neg hcc]
    exact hcc

theorem acquireIdx_lt (accounts : List Account) (exclude : List String) (choice : Nat)
    (h : accounts ≠ []) : acquireIdx accounts exclude choice < accounts.length := by
  have hne := acquireCands_ne_nil accounts exclude h
  have hlc : 0 < (acquireCands accounts exclude).length := List.length_pos_of_ne_nil hne
  have hmem : acquireIdx accounts exclude choice ∈ acquireCands accounts exclude := by
    unfold acquireIdx
    rw [List.getD_eq_getElem _ _ (Nat.mod_lt _ hlc)]
    exact List.getElem_mem _
  exact acquireCands_sub accounts exclude _ hmem

/-- C9: `Acquire` hands out a value copy — a successful `EnsureToken` on the
returned account rewrites the token only in that copy (identity fields are
preserved), the pool roster is untouched by both the acquire and the ensure,
and any later `Acquire` still returns one of the pool's original entries
(hence with the original stored token). -/
theorem acquire_returns_value_copy (p : PoolState) (exclude : List String) (choice : Nat)
    (acc : Account) (p' : PoolState) (loginResult : Except String String) (acc' : Account)
    (hacq : acquire p exclude choice = (some acc, p'))
    (hens : ensureToken p.refresh loginResult acc = .ok acc') :
    p'.accounts = p.accounts ∧ acc ∈ p.accounts ∧
      acc'.email = acc.email ∧ acc'.mobile = acc.mobile ∧ acc'.password = acc.password ∧
      (∀ e2 c2 a2 p2, acquire p' e2 c2 = (some a2, p2) → a2 ∈ p.accounts) := by
  have hmain : ∀ (q : PoolState) (e : List String) (c : Nat) (a : Account) (q' : PoolState),
      acquire q e c = (some a, q') → q'.accounts = q.accounts ∧ a ∈ q.accounts := by
    intro q e c a q' h
    unfold acquire at h
    by_cases hnil : q.accounts = []
    · rw [if_pos hnil] at h
      exact absurd h (by simp)
    · rw [if_neg hnil] at h
      obtain ⟨ha, hq⟩ : _ ∧ _ := Prod.mk.injEq .. ▸ h
      constructor
      · rw [← hq]
      · have hidx : acquireIdx q.accounts e c < q.accounts.length := acquireIdx_lt _ _ _ hnil
        have : a = q.accounts.getD (acquireIdx q.accounts e c) default :=
          (Option.some.injEq .. ▸ ha).symm
        rw [this, List.getD_eq_getElem _ _ hidx]
        exact List.getElem_mem _
  obtain ⟨h1, h2⟩ := hmain p exclude choice acc p' hacq
  have hfields : acc'.email = acc.email ∧ acc'.mobile = acc.mobile
      ∧ acc'.password = acc.password := by
    unfold ensureToken at hens
    by_cases c1 : trimSpace acc.token ≠ "" ∧ ¬ p.refresh
    · rw [if_pos c1] at hens
      obtain rfl : acc = acc' := by simpa using hens
      exact ⟨rfl, rfl, rfl⟩
    · rw [if_neg c1] at hens
      by_cases c2 : trimSpace acc.password = ""
          ∨ (trimSpace acc.email = "" ∧ trimSpace acc.mobile = "")
      · rw [if_pos c2] at hens
        by_cases c3 : trimSpace acc.token ≠ ""
        · rw [if_pos c3] at hens
          obtain rfl : acc = acc' := by simpa using hens
          exact ⟨rfl, rfl, rfl⟩
        · rw [if_neg c3] at hens
          exact absurd hens (by simp)
      · rw [if_neg c2] at hens
        cases loginResult with
        | error e => exact absurd hens (by simp)
        | ok tok =>
          dsimp only at hens
          by_cases c4 : trimSpace tok = ""
          · rw [if_pos c4] at hens
            exact absurd hens (by simp)
          · rw [if_neg c4] at hens
            obtain rfl : { acc with token := tok } = acc' := by simpa using hens
            exact ⟨rfl, rfl, rfl⟩
  refine ⟨h1, h2, hfields.1, hfields.2.1, hfields.2.2, ?_⟩
  intro e2 c2 a2 p2 hacq2
  have := (hmain p' e2 c2 a2 p2 hacq2).2
  rw [h1] at this
  exact this

/-- C9 witness: a pool holding one account with token `"old"`; the login
fetches `"new"`; the returned copy carries `"new"`, the pool entry keeps
`"old"`, and the next acquire returns the original entry. -/
theorem acquire_returns_value_copy_witness :
    acquire (initPool [⟨"a@x", "", "pw", "old"⟩] true 1) [] 0
        = (some ⟨"a@x", "", "pw", "old"⟩,
            { initPool [⟨"a@x", "", "pw", "old"⟩] true 1 with active := [("a@x", 1)] }) ∧
    ensureToken true (.ok "new") ⟨"a@x", "", "pw", "old"⟩ = .ok ⟨"a@x", "", "pw", "new"⟩ ∧
    ({ initPool [⟨"a@x", "", "pw", "old"⟩] true 1 with
        active := [("a@x", 1)] } : PoolState).accounts
      = (initPool [⟨"a@x", "", "pw", "old"⟩] true 1).accounts ∧
    (⟨"a@x", "", "pw", "old"⟩ : Account) ∈ (initPool [⟨"a@x", "", "pw", "old"⟩] true 1).accounts := by
  have hacq : acquire (initPool [⟨"a@x", "", "pw", "old"⟩] true 1) [] 0
      = (some ⟨"a@x", "", "pw", "old"⟩,
          { initPool [⟨"a@x", "", "pw", "old"⟩] true 1 with active := [("a@x", 1)] }) := rfl
  have hens : ensureToken true (.ok "new") (⟨"a@x", "", "pw", "old"⟩ : Account)
      = .ok ⟨"a@x", "", "pw", "new"⟩ := rfl
  have h := acquire_returns_value_copy (initPool [⟨"a@x", "", "pw", "old"⟩] true 1) [] 0
    ⟨"a@x", "", "pw", "old"⟩ _ (.ok "new") ⟨"a@x", "", "pw", "new"⟩ hacq hens
  exact ⟨hacq, hens, h.1, h.2.1⟩

end DS2API

namespace DS2API

theorem assocFind_cons {β : Type} (e : String × β) (rest : List (String × β)) (k : String) :
    assocFind (e :: rest) k = if e.1 = k then some e.2 else assocFind rest k := by
  by_cases h : e.1 = k
  · simp [assocFind, List.find?_cons_of_pos, h]
  · simp [assocFind, List.find?_cons_of_neg, h]

theorem assocFind_assocSet_ne {β : Type} (m : List (String × β)) (k k' : String) (v : β)
    (h : k' ≠ k) : assocFind (assocSet m k v) k' = assocFind m k' := by
  induction m with
  | nil => simp [assocSet, assocFind_cons, Ne.symm h, assocFind]
  | cons e rest ih =>
    by_cases he : e.1 = k
    · simp only [assocSet, if_pos he]
      rw [assocFind_cons, assocFind_cons,
        if_neg (show ¬(k, v).1 = k' from fun hk => h hk.symm),
        if_neg (show ¬e.1 = k' from fun hk => h (by rw [← hk, he]))]
    · simp only [assocSet, if_neg he]
      rw [assocFind_cons, assocFind_cons, ih]

theorem mapGetInt_assocSet (m : List (String × Int)) (k k' : String) (v : Int) :
    mapGetInt (assocSet m k v) k' = if k' = k then v else mapGetInt m k' := by
  by_cases h : k' = k
  · subst h
    simp [mapGetInt, assocFind_assocSet_self]
  · simp [mapGetInt, h, assocFind_assocSet_ne m k k' v h]

theorem assocFind_assocDel_self {β : Type} (m : List (String × β)) (k : String) :
    assocFind (assocDel m k) k = none := by
  unfold assocFind
  rw [show (List.find? (fun e => e.1 == k) (assocDel m k)) = none from ?_]
  · rfl
  rw [List.find?_eq_none]
  intro e he
  have := (List.mem_filter.mp he).2
  simpa using this

theorem assocDel_cons {β : Type} (e : String × β) (rest : List (String × β)) (k : String) :
    assocDel (e :: rest) k = if e.1 = k then assocDel rest k else e :: assocDel rest k := by
  by_cases h : e.1 = k
  · simp [assocDel, List.filter, h]
  · simp [assocDel, List.filter, h]

theorem assocFind_assocDel_ne {β : Type} (m : List (String × β)) (k k' : String)
    (h : k' ≠ k) : assocFind (assocDel m k) k' = assocFind m k' := by
  induction m with
  | nil => rfl
  | cons e rest ih =>
    rw [assocDel_cons]
    by_cases he : e.1 = k
    · rw [if_pos he, ih, assocFind_cons, if_neg (fun hk => h (by rw [← hk, he]))]
    · rw [if_neg he, assocFind_cons, assocFind_cons, ih]

theorem mapGetInt_assocDel (m : List (String × Int)) (k k' : String) :
    mapGetInt (assocDel m k) k' = if k' = k then 0 else mapGetInt m k' := by
  by_cases h : k' = k
  · subst h
    simp [mapGetInt, assocFind_assocDel_self]
  · simp [mapGetInt, h, assocFind_assocDel_ne m k k' h]

theorem mem_assocSet {β : Type} (m : List (String × β)) (k : String) (v : β) :
    ∀ kv ∈ assocSet m k v, kv = (k, v) ∨ kv ∈ m := by
  induction m with
  | nil =>
    intro kv h
    simp only [assocSet] at h
    exact Or.inl (by simpa using h)
  | cons e rest ih =>
    intro kv h
    by_cases he : e.1 = k
    · simp only [assocSet, if_pos he] at h
      rcases List.mem_cons.mp h with h1 | h1
      · exact Or.inl h1
      · exact Or.inr (List.mem_cons_of_mem _ h1)
    · simp only [assocSet, if_neg he] at h
      rcases List.mem_cons.mp h with h1 | h1
      · exact Or.inr (h1 ▸ List.mem_cons_self _ _)
      · rcases ih kv h1 with h2 | h2
        · exact Or.inl h2
        · exact Or.inr (List.mem_cons_of_mem _ h2)

theorem mem_assocDel {β : Type} (m : List (String × β)) (k : String) :
    ∀ kv ∈ assocDel m k, kv ∈ m := by
  intro kv h
  exact (List.mem_filter.mp h).1

theorem mapGetInt_nonneg (m : List (String × Int)) (k : String)
    (h : ∀ kv ∈ m, 1 ≤ kv.2) : 0 ≤ mapGetInt m k := by
  unfold mapGetInt assocFind
  cases hf : m.find? (fun e => e.1 == k) with
  | none => simp
  | some e =>
    have hmem := List.mem_of_find?_eq_some hf
    have := h e hmem
    simp only [Option.map_some', Option.getD_some]
    omega

theorem active_empty_of_values (m : List (String × Int))
    (hval : ∀ kv ∈ m, 1 ≤ kv.2) (hzero : ∀ id, mapGetInt m id = 0) : m = [] := by
  cases m with
  | nil => rfl
  | cons e rest =>
    exfalso
    have hz := hzero e.1
    rw [show mapGetInt (e :: rest) e.1 = e.2 from by
      simp [mapGetInt, assocFind_cons]] at hz
    have := hval e (List.mem_cons_self _ _)
    omega

end DS2API

namespace DS2API

theorem goCount_append_op (roster : List Account) (id : String) (ops : List PoolOp)
    (op : PoolOp) :
    goCount roster id (ops ++ [op])
      = (if opAcqId roster op = some id then goCount roster id ops + 1
        else if opRelId op = some id then
          (if 1 < goCount roster id ops then goCount roster id ops - 1 else 0)
        else goCount roster id ops) := by
  unfold goCount
  rw [List.foldl_append]
  rfl

theorem applyOps_append_op (p : PoolState) (ops : List PoolOp) (op : PoolOp) :
    applyOps p (ops ++ [op]) = applyOp (applyOps p ops) op := by
  unfold applyOps
  rw [List.foldl_append]
  rfl

/-- The replay invariant of the pool counter: the roster is unchanged by
acquire/release, every id's counter reads exactly the Go-maintained count,
and every stored counter value is at least 1. -/
theorem applyOps_invariant (roster : List Account) (refresh : Bool) (maxA : Nat)
    (ops : List PoolOp) :
    (applyOps (initPool roster refresh maxA) ops).accounts = roster ∧
    (∀ id, mapGetInt (applyOps (initPool roster refresh maxA) ops).active id
        = goCount roster id ops) ∧
    (∀ kv ∈ (applyOps (initPool roster refresh maxA) ops).active, 1 ≤ kv.2) := by
  induction ops using List.reverseRecOn with
  | nil => exact ⟨rfl, fun id => rfl, by simp [applyOps, initPool]⟩
  | append_singleton ops op ih =>
    obtain ⟨hacc, hcount, hval⟩ := ih
    rw [applyOps_append_op]
    set p := applyOps (initPool roster refresh maxA) ops with hp
    cases op with
    | acq e c =>
      by_cases hnil : p.accounts = []
      · have hre : roster = [] := by rw [← hacc]; exact hnil
        have hid : applyOp p (.acq e c) = p := by
          unfold applyOp acquire
          dsimp only
          rw [if_pos hnil]
        have hnone : opAcqId roster (PoolOp.acq e c) = none := by
          unfold opAcqId acquiredId
          dsimp only
          rw [if_pos hre]
        rw [hid]
        refine ⟨hacc, fun id => ?_, hval⟩
        rw [goCount_append_op, hnone]
        simp only [opRelId, reduceCtorEq, if_false]
        exact hcount id
      · have hrne : roster ≠ [] := by rw [← hacc]; exact hnil
        have hacc2 : (applyOp p (.acq e c)).accounts = p.accounts := by
          unfold applyOp acquire
          dsimp only
          rw [if_neg hnil]
        have hact : (applyOp p (.acq e c)).active
            = assocSet p.active
                (accountID (p.accounts.getD (acquireIdx p.accounts e c) default))
                (mapGetInt p.active
                  (accountID (p.accounts.getD (acquireIdx p.accounts e c) default)) + 1) := by
          unfold applyOp acquire
          dsimp only
          rw [if_neg hnil]
        have hacqid : opAcqId roster (PoolOp.acq e c)
            = some (accountID (p.accounts.getD (acquireIdx p.accounts e c) default)) := by
          unfold opAcqId acquiredId
          dsimp only
          rw [if_neg hrne, hacc]
        refine ⟨by rw [hacc2, hacc], fun id => ?_, ?_⟩
        · rw [hact, goCount_append_op, hacqid, mapGetInt_assocSet]
          by_cases hid : id = accountID (p.accounts.getD (acquireIdx p.accounts e c) default)
          · rw [if_pos hid, if_pos (by rw [hid]), hid, hcount]
          · rw [if_neg hid, if_neg (by simpa using Ne.symm hid)]
            simp only [opRelId, reduceCtorEq, if_false]
            exact hcount id
        · intro kv hkv
          rw [hact] at hkv
          rcases mem_assocSet _ _ _ kv hkv with h1 | h1
          · rw [h1]
            have := mapGetInt_nonneg p.active
              (accountID (p.accounts.getD (acquireIdx p.accounts e c) default)) hval
            simp only []
            omega
          · exact hval kv h1
    | rel a =>
      cases a with
      | none =>
        have hid : applyOp p (.rel none) = p := rfl
        rw [hid]
        refine ⟨hacc, fun id => ?_, hval⟩
        rw [goCount_append_op]
        simp only [opAcqId, opRelId, reduceCtorEq, if_false]
        exact hcount id
      | some ac =>
        have hrel : opRelId (PoolOp.rel (some ac)) = some (accountID ac) := rfl
        have hnacq : opAcqId roster (PoolOp.rel (some ac)) = none := rfl
        by_cases hgt : 1 < mapGetInt p.active (accountID ac)
        · have hacc2 : (applyOp p (.rel (some ac))).accounts = p.accounts := by
            unfold applyOp release
            dsimp only
            rw [if_pos hgt]
          have hact : (applyOp p (.rel (some ac))).active
              = assocSet p.active (accountID ac) (mapGetInt p.active (accountID ac) - 1) := by
            unfold applyOp release
            dsimp only
            rw [if_pos hgt]
          refine ⟨by rw [hacc2, hacc], fun id => ?_, ?_⟩
          · rw [hact, goCount_append_op, hnacq, hrel]
            simp only [reduceCtorEq, if_false]
            rw [mapGetInt_assocSet]
            by_cases hid : id = accountID ac
            · rw [if_pos hid, if_pos (by simpa using hid.symm), hid, hcount,
                if_pos (by rw [← hcount (accountID ac)]; exact hgt)]
            · rw [if_neg hid, if_neg (by simpa using Ne.symm hid)]
              exact hcount id
          · intro kv hkv
            rw [hact] at hkv
            rcases mem_assocSet _ _ _ kv hkv with h1 | h1
            · rw [h1]
              simp only []
              omega
            · exact hval kv h1
        · have hacc2 : (applyOp p (.rel (some ac))).accounts = p.accounts := by
            unfold applyOp release
            dsimp only
            rw [if_neg hgt]
          have hact : (applyOp p (.rel (some ac))).active
              = assocDel p.active (accountID ac) := by
            unfold applyOp release
            dsimp only
            rw [if_neg hgt]
          refine ⟨by rw [hacc2, hacc], fun id => ?_, ?_⟩
          · rw [hact, goCount_append_op, hnacq, hrel]
            simp only [reduceCtorEq, if_false]
            rw [mapGetInt_assocDel]
            by_cases hid : id = accountID ac
            · rw [if_pos hid, if_pos (by simpa using hid.symm), hid,
                if_neg (by rw [← hcount (accountID ac)]; exact hgt)]
            · rw [if_neg hid, if_neg (by simpa using Ne.symm hid)]
              exact hcount id
          · intro kv hkv
            rw [hact] at hkv
            exact hval kv (mem_assocDel _ _ kv hkv)

end DS2API

namespace DS2API

theorem acqCount_append (roster : List Account) (ops1 ops2 : List PoolOp) (id : String) :
    acqCount roster (ops1 ++ ops2) id = acqCount roster ops1 id + acqCount roster ops2 id := by
  unfold acqCount
  rw [List.map_append, List.count_append]

theorem relCount_append (ops1 ops2 : List PoolOp) (id : String) :
    relCount (ops1 ++ ops2) id = relCount ops1 id + relCount ops2 id := by
  unfold relCount
  rw [List.map_append, List.count_append]

theorem acqCount_singleton (roster : List Account) (op : PoolOp) (id : String) :
    acqCount roster [op] id = if opAcqId roster op = some id then 1 else 0 := by
  unfold acqCount
  by_cases h : opAcqId roster op = some id
  · simp [h]
  · simp [List.count_cons, h]

theorem relCount_singleton (op : PoolOp) (id : String) :
    relCount [op] id = if opRelId op = some id then 1 else 0 := by
  unfold relCount
  by_cases h : opRelId op = some id
  · simp [h]
  · simp [List.count_cons, h]

theorem opAcqId_rel_none (roster : List Account) (op : PoolOp) (id : String)
    (h : opAcqId roster op = some id) : opRelId op = none := by
  cases op with
  | acq e c => rfl
  | rel a => exact absurd h (by cases a <;> simp [opAcqId])

theorem opRelId_acq_none (roster : List Account) (op : PoolOp) (id : String)
    (h : opRelId op = some id) : opAcqId roster op = none := by
  cases op with
  | acq e c => exact absurd h (by simp [opRelId])
  | rel a =>
    cases a with
    | none => exact absurd h (by simp [opRelId])
    | some ac => rfl

theorem goCount_eq_diff (roster : List Account) (id : String) (ops : List PoolOp)
    (hpre : ∀ n, relCount (ops.take n) id ≤ acqCount roster (ops.take n) id) :
    goCount roster id ops = (acqCount roster ops id : Int) - relCount ops id := by
  induction ops using List.reverseRecOn with
  | nil => rfl
  | append_singleton ops op ih =>
    have hpre' : ∀ n, relCount (ops.take n) id ≤ acqCount roster (ops.take n) id := by
      intro n
      by_cases hn : n ≤ ops.length
      · have := hpre n
        rw [List.take_append_of_le_length hn] at this
        exact this
      · rw [List.take_of_length_le (by omega)]
        have := hpre ops.length
        rw [List.take_append_of_le_length (Nat.le_refl _), List.take_length] at this
        exact this
    have hfull := hpre ((ops ++ [op]).length)
    rw [List.take_length, acqCount_append, relCount_append,
      acqCount_singleton, relCount_singleton] at hfull
    have ihd := ih hpre'
    rw [goCount_append_op, acqCount_append, relCount_append,
      acqCount_singleton, relCount_singleton]
    by_cases h1 : opAcqId roster op = some id
    · rw [if_pos h1, if_pos h1, ihd]
      rw [opAcqId_rel_none roster op id h1]
      simp only [reduceCtorEq, if_false]
      push_cast
      omega
    · rw [if_neg h1, if_neg h1]
      by_cases h2 : opRelId op = some id
      · rw [if_pos h2, if_pos h2, ihd]
        rw [if_neg h1, if_pos h2] at hfull
        push_cast at hfull ⊢
        split
        · omega
        · omega
      · rw [if_neg h2, if_neg h2, ihd]
        push_cast
        omega

/-- C4: for every sequence of `Acquire`/`Release` operations on a pool (the
roster fixed, the random draws resolved by explicit choices), every stored
per-account in-use counter value stays non-negative (a `Release` never drives
a counter below zero, including a release of an account with no counter
entry), and after any balanced sequence — each successful acquire matched by
exactly one later release of the returned account — the counter map is
empty. -/
theorem pool_counter_invariant (roster : List Account) (refresh : Bool) (maxA : Nat)
    (ops : List PoolOp) :
    (∀ kv ∈ (applyOps (initPool roster refresh maxA) ops).active, 0 ≤ kv.2) ∧
    (Balanced roster ops → (applyOps (initPool roster refresh maxA) ops).active = []) := by
  obtain ⟨-, hcount, hval⟩ := applyOps_invariant roster refresh maxA ops
  constructor
  · intro kv hkv
    have := hval kv hkv
    omega
  · intro hb
    apply active_empty_of_values _ hval
    intro id
    rw [hcount id, goCount_eq_diff roster id ops (fun n => (hb id).2 n)]
    have := (hb id).1
    omega

end DS2API

namespace DS2API

/-- C4 witness: on the one-account roster, the balanced sequence
acquire-then-release has non-negative counters throughout and ends with an
empty counter map. -/
theorem pool_counter_invariant_witness :
    Balanced [⟨"a@x", "", "", ""⟩] [.acq [] 0, .rel (some ⟨"a@x", "", "", ""⟩)] ∧
    (∀ kv ∈ (applyOps (initPool [⟨"a@x", "", "", ""⟩] false 1)
        [.acq [] 0, .rel (some ⟨"a@x", "", "", ""⟩)]).active, 0 ≤ kv.2) ∧
    (applyOps (initPool [⟨"a@x", "", "", ""⟩] false 1)
        [.acq [] 0, .rel (some ⟨"a@x", "", "", ""⟩)]).active = [] := by
  have hb : Balanced [⟨"a@x", "", "", ""⟩] [.acq [] 0, .rel (some ⟨"a@x", "", "", ""⟩)] := by
    intro id
    by_cases hid : id = "a@x"
    · subst hid
      refine ⟨by decide, ?_⟩
      intro n
      match n with
      | 0 => decide
      | 1 => decide
      | (n + 2) =>
        rw [List.take_of_length_le (by simp)]
        decide
    · have hrel0 : ∀ (l : List PoolOp),
          (∀ x ∈ l.map opRelId, x = none ∨ x = some "a@x") → relCount l id = 0 := by
        intro l hl
        unfold relCount
        rw [List.count_eq_zero]
        intro hmem
        rcases hl _ hmem with h | h
        · exact absurd h (by simp)
        · exact hid (by simpa using h)
      have hsub : ∀ n x, x ∈ (([PoolOp.acq [] 0,
            PoolOp.rel (some ⟨"a@x", "", "", ""⟩)].take n).map opRelId) →
          x = none ∨ x = some "a@x" := by
        intro n x hx
        obtain ⟨op, hop, rfl⟩ := List.mem_map.mp hx
        have hop2 : op ∈ [PoolOp.acq [] 0, PoolOp.rel (some ⟨"a@x", "", "", ""⟩)] :=
          List.take_subset _ _ hop
        rcases List.mem_cons.mp hop2 with h | h
        · subst h; exact Or.inl rfl
        · rcases List.mem_cons.mp h with h | h
          · subst h; exact Or.inr rfl
          · exact absurd h (by simp)
      have hreln : ∀ n, relCount (([PoolOp.acq [] 0,
          PoolOp.rel (some ⟨"a@x", "", "", ""⟩)].take n)) id = 0 :=
        fun n => hrel0 _ (hsub n)
      have hrelfull : relCount [PoolOp.acq [] 0,
          PoolOp.rel (some ⟨"a@x", "", "", ""⟩)] id = 0 := by
        have := hreln 2
        simpa using this
      have hacq0 : acqCount [⟨"a@x", "", "", ""⟩] [PoolOp.acq [] 0,
          PoolOp.rel (some ⟨"a@x", "", "", ""⟩)] id = 0 := by
        unfold acqCount
        rw [List.count_eq_zero]
        intro hmem
        rw [show ([PoolOp.acq [] 0, PoolOp.rel (some ⟨"a@x", "", "", ""⟩)].map
            (opAcqId [⟨"a@x", "", "", ""⟩])) = [some "a@x", none] from rfl] at hmem
        rcases List.mem_cons.mp hmem with h | h
        · exact hid (by simpa using h)
        · simp at h
      exact ⟨by rw [hrelfull, hacq0], fun n => by rw [hreln n]; exact Nat.zero_le _⟩
  have h := pool_counter_invariant [⟨"a@x", "", "", ""⟩] false 1
    [.acq [] 0, .rel (some ⟨"a@x", "", "", ""⟩)]
  exact ⟨hb, h.1, h.2 hb⟩

end DS2API

namespace DS2API

theorem acquire_shape (p : PoolState) (e : List String) (c : Nat) (h : p.accounts ≠ []) :
    ∃ acc, acc ∈ p.accounts ∧
      (acquire p e c).1 = some acc ∧
      (acquire p e c).2.accounts = p.accounts ∧
      (acquire p e c).2.active
        = assocSet p.active (accountID acc) (mapGetInt p.active (accountID acc) + 1) := by
  refine ⟨p.accounts.getD (acquireIdx p.accounts e c) default, ?_, ?_, ?_, ?_⟩
  · rw [List.getD_eq_getElem _ _ (acquireIdx_lt _ _ _ h)]
    exact List.getElem_mem _
  · unfold acquire
    rw [if_neg h]
  · unfold acquire
    rw [if_neg h]
  · unfold acquire
    rw [if_neg h]

/-- C5: after every `Reload`, the keys of the in-use counter are a subset of
the identifiers of the post-cap roster built from the new account list; and
in the concrete scenario — roster `[a@x, b@x]`, one account acquired,
`Reload([c@x], false, 1)` — the status reads total 1, available 1, in_use 0,
active_sessions 0, max_accounts 1, and the next `Acquire` returns `c@x`. -/
theorem reload_purges_counters :
    (∀ (shuffle : List Account → List Account) (p : PoolState) (new : List Account)
        (refresh : Bool) (maxA : Int) (k : String),
        k ∈ ((reloadLocked shuffle p new refresh maxA).active.map Prod.fst) →
        k ∈ ((reloadLocked shuffle p new refresh maxA).accounts.map accountID)) ∧
    (∀ (shuffle : List Account → List Account) (c1 c2 : Nat),
      getStatus (reloadLocked shuffle
          (acquire (initPool [⟨"a@x", "", "", "ta"⟩, ⟨"b@x", "", "", "tb"⟩] false 2) [] c1).2
          [⟨"c@x", "", "", "tc"⟩] false 1)
        = ⟨1, 1, 0, 0, 1⟩ ∧
      (acquire (reloadLocked shuffle
          (acquire (initPool [⟨"a@x", "", "", "ta"⟩, ⟨"b@x", "", "", "tb"⟩] false 2) [] c1).2
          [⟨"c@x", "", "", "tc"⟩] false 1) [] c2).1
        = some ⟨"c@x", "", "", "tc"⟩) := by
  constructor
  · intro shuffle p new refresh maxA k hk
    unfold reloadLocked at hk ⊢
    dsimp only at hk ⊢
    obtain ⟨kv, hkv, rfl⟩ := List.mem_map.mp hk
    have := List.mem_filter.mp hkv
    simpa using this.2
  · intro shuffle c1 c2
    obtain ⟨acc, hmem, h1, haccs, hact⟩ :=
      acquire_shape (initPool [⟨"a@x", "", "", "ta"⟩, ⟨"b@x", "", "", "tb"⟩] false 2) [] c1
        (by simp [initPool])
    have hact2 : (acquire (initPool [⟨"a@x", "", "", "ta"⟩, ⟨"b@x", "", "", "tb"⟩] false 2)
        [] c1).2.active = [(accountID acc, 1)] := by
      rw [hact]
      rfl
    have hid_cases : accountID acc = "a@x" ∨ accountID acc = "b@x" := by
      rcases List.mem_cons.mp hmem with h | h
      · exact Or.inl (by rw [h]; rfl)
      · rcases List.mem_cons.mp h with h | h
        · exact Or.inr (by rw [h]; rfl)
        · exact absurd h (by simp)
    have key : reloadLocked shuffle
        (acquire (initPool [⟨"a@x", "", "", "ta"⟩, ⟨"b@x", "", "", "tb"⟩] false 2) [] c1).2
        [⟨"c@x", "", "", "tc"⟩] false 1
        = { accounts := [⟨"c@x", "", "", "tc"⟩], active := [], refresh := false,
            maxAccounts := 1 } := by
      unfold reloadLocked
      dsimp only
      rw [if_neg (by decide), if_neg (by decide), hact2]
      rcases hid_cases with h | h <;> rw [h] <;> rfl
    refine ⟨by rw [key]; rfl, ?_⟩
    rw [key]
    have hidx : acquireIdx [(⟨"c@x", "", "", "tc"⟩ : Account)] [] c2 = 0 := by
      unfold acquireIdx
      rw [show acquireCands [(⟨"c@x", "", "", "tc"⟩ : Account)] [] = [0] from rfl]
      rw [show ([0] : List Nat).length = 1 from rfl, Nat.mod_one]
      rfl
    unfold acquire
    rw [if_neg (by decide)]
    dsimp only
    rw [hidx]
    rfl

/-- C5 witness: the subset invariant at a pool whose counter holds the
surviving id, and the concrete scenario with the identity shuffle and
choices 0. -/
theorem reload_purges_counters_witness :
    ("c@x" ∈ ((reloadLocked id ⟨[⟨"a@x", "", "", "ta"⟩], [("c@x", 1)], false, 1⟩
        [⟨"c@x", "", "", "tc"⟩] false 1).active.map Prod.fst) →
      "c@x" ∈ ((reloadLocked id ⟨[⟨"a@x", "", "", "ta"⟩], [("c@x", 1)], false, 1⟩
        [⟨"c@x", "", "", "tc"⟩] false 1).accounts.map accountID)) ∧
    getStatus (reloadLocked id
        (acquire (initPool [⟨"a@x", "", "", "ta"⟩, ⟨"b@x", "", "", "tb"⟩] false 2) [] 0).2
        [⟨"c@x", "", "", "tc"⟩] false 1)
      = ⟨1, 1, 0, 0, 1⟩ ∧
    (acquire (reloadLocked id
        (acquire (initPool [⟨"a@x", "", "", "ta"⟩, ⟨"b@x", "", "", "tb"⟩] false 2) [] 0).2
        [⟨"c@x", "", "", "tc"⟩] false 1) [] 0).1
      = some ⟨"c@x", "", "", "tc"⟩ :=
  ⟨reload_purges_counters.1 id ⟨[⟨"a@x", "", "", "ta"⟩], [("c@x", 1)], false, 1⟩
      [⟨"c@x", "", "", "tc"⟩] false 1 "c@x",
    (reload_purges_counters.2 id 0 0).1,
    (reload_purges_counters.2 id 0 0).2⟩

end DS2API
